import Mathlib

/-!
Verification development for the tabled SLG search engine of the chalk
repository (crate chalk-engine, file src/chalk-engine/src/logic.rs, with
collaborators in src/chalk-engine/src/simplify.rs,
src/chalk-solve/src/solve/slg.rs, src/chalk-solve/src/solve/slg/resolvent.rs
and src/src/infer/invert.rs).

The embedding is shallow: the engine's functions become Lean functions over
explicit state.  The engine is generic over a `Context` with many associated
types; those stay abstract here as type parameters, and the context
operations are collected into an `Ops` record of function parameters.
Rust panics (panic!, assert!, unwrap, out-of-bounds indexing) are modelled
by returning `none`; recoverable errors travel in `Except`.

Several support modules of chalk-engine (forest.rs, table.rs, stack.rs,
strand.rs, the crate root defining ExClause / TimeStamp / Minimums) are not
part of the source tree given; their data and operations are modelled from
the specification and are marked `Modelled from the spec:` below.
-/

namespace ChalkEngine

/-- Modelled from the spec: TimeStamp (crate root of chalk-engine, missing
from the tree) is a monotonically increasing integer clock equipped with
MAX; in the implementation it wraps a 64-bit unsigned integer.  We model it
as a natural number whose designated maximum is 2 ^ 64 - 1. -/
abbrev TimeStamp := Nat

/-- Modelled from the spec: the maximal TimeStamp (u64::MAX). -/
def TimeStamp.MAX : TimeStamp := 2 ^ 64 - 1

/-- Modelled from the spec: a TimeStamp advances by one on each increment. -/
def TimeStamp.increment (t : TimeStamp) : TimeStamp := t + 1

/-- Modelled from the spec: the pair of smallest clocks on which the current
stack frame transitively depends positively and negatively. -/
structure Minimums where
  positive : TimeStamp
  negative : TimeStamp
deriving DecidableEq

/-- Modelled from the spec: pointwise minima merge of cyclic minimums. -/
def Minimums.take_minimums (m other : Minimums) : Minimums :=
  { positive := min m.positive other.positive
    negative := min m.negative other.negative }

/-- Modelled from the spec: the smaller of the two components. -/
def Minimums.minimum_of_pos_and_neg (m : Minimums) : TimeStamp :=
  min m.positive m.negative

/-- Modelled from the spec: the Minimums value with both components MAX. -/
def Minimums.MAX : Minimums :=
  { positive := TimeStamp.MAX, negative := TimeStamp.MAX }

/-- Index of a table in the forest. -/
abbrev TableIndex := Nat

/-- Index of an answer within a table. -/
abbrev AnswerIndex := Nat

/-- Index of a frame on the stack, counted from the bottom. -/
abbrev StackIndex := Nat

/-- The ways a root search can fail (chalk-engine/src/logic.rs). -/
inductive RootSearchFail where
  | NoMoreSolutions
  | Floundered
  | QuantumExceeded
  | NegativeCycle
  | InvalidAnswer
deriving DecidableEq

/-- Outcome of selecting a subgoal for a strand (chalk-engine/src/logic.rs). -/
inductive SubGoalSelection where
  | Selected
  | NoRemainingSubgoals
  | Floundered
deriving DecidableEq

/-- Outcome of on_no_remaining_subgoals (chalk-engine/src/logic.rs). -/
inductive NoRemainingSubgoalsResult where
  | RootAnswerAvailable
  | RootSearchFail (e : RootSearchFail)
  | Success
deriving DecidableEq

/-- Local unification failure (chalk-engine/src/fallible.rs usage). -/
inductive NoSolution where
  | mk
deriving DecidableEq

/-- Floundered signal from the clause source. -/
inductive ClauseFlounder where
  | mk
deriving DecidableEq

/-- A literal: positive or negative occurrence of a goal. -/
inductive Literal (G : Type) where
  | Positive (goal : G)
  | Negative (goal : G)
deriving DecidableEq

/-- Modelled from the spec: a subgoal that floundered, together with the
answer time at which it floundered. -/
structure FlounderedSubgoal (G : Type) where
  floundered_literal : Literal G
  floundered_time : TimeStamp
deriving DecidableEq

/-- The live proof state carried by a strand (crate root of chalk-engine;
field list from the spec and from the uses in logic.rs / simplify.rs). -/
structure ExClause (G S R : Type) where
  subst : S
  ambiguous : Bool
  constraints : List R
  subgoals : List (Literal G)
  delayed_subgoals : List G
  answer_time : TimeStamp
  floundered_subgoals : List (FlounderedSubgoal G)
deriving DecidableEq

/-- A canonical form of a value.  Canonicalization itself is an external
term service; we keep only the binder count and the canonical value. -/
structure Canonical (α : Type) where
  binders : Nat
  value : α
deriving DecidableEq

/-- The payload of a canonical answer substitution: substitution,
accumulated constraints, and delayed subgoals (chalk_ir AnswerSubst, as
used by slg.rs and resolvent.rs). -/
structure AnswerSubst (G S R : Type) where
  subst : S
  constraints : List R
  delayed_subgoals : List G
deriving DecidableEq

/-- A substitution constrained by region constraints, with no delayed
subgoals (chalk_ir ConstrainedSubst). -/
structure ConstrainedSubst (S R : Type) where
  subst : S
  constraints : List R
deriving DecidableEq

/-- An answer of a table. -/
structure Answer (G S R : Type) where
  subst : Canonical (AnswerSubst G S R)
  ambiguous : Bool
deriving DecidableEq

/-- A complete answer: no delayed subgoals. -/
structure CompleteAnswer (S R : Type) where
  subst : Canonical (ConstrainedSubst S R)
  ambiguous : Bool
deriving DecidableEq

/-- From slg.rs: whether a canonical answer substitution carries delayed
subgoals. -/
def has_delayed_subgoals {G S R : Type} (c : Canonical (AnswerSubst G S R)) : Bool :=
  !c.value.delayed_subgoals.isEmpty

/-- From slg.rs: whether the constraint set of a canonical answer
substitution is empty. -/
def empty_constraints {G S R : Type} (c : Canonical (AnswerSubst G S R)) : Bool :=
  c.value.constraints.isEmpty

/-- From slg.rs: converting a canonical answer substitution (which must
carry no delayed subgoals) into a canonical constrained substitution. -/
def canonical_constrained_subst_from_canonical_constrained_answer
    {G S R : Type} (c : Canonical (AnswerSubst G S R)) : Canonical (ConstrainedSubst S R) :=
  { binders := c.binders
    value := { subst := c.value.subst, constraints := c.value.constraints } }

/-- From slg.rs: the inference-normalized substitution of a canonical
answer substitution is its substitution component. -/
def inference_normalized_subst_from_subst
    {G S R : Type} (c : Canonical (AnswerSubst G S R)) : S :=
  c.value.subst

/-- From slg.rs: the inference-normalized substitution of a canonical
ex-clause is its substitution component. -/
def inference_normalized_subst_from_ex_clause
    {G S R : Type} (c : Canonical (ExClause G S R)) : S :=
  c.value.subst

/-- The subgoal currently selected by a strand (strand.rs, missing from the
tree; field list from the spec and the uses in logic.rs). -/
structure SelectedSubgoal (M : Type) where
  subgoal_index : Nat
  subgoal_table : TableIndex
  answer_index : AnswerIndex
  universe_map : M
deriving DecidableEq

/-- A live strand: inference context plus ex-clause (strand.rs, modelled
from the spec and the uses in logic.rs). -/
structure Strand (G S R I M : Type) where
  infer : I
  ex_clause : ExClause G S R
  selected_subgoal : Option (SelectedSubgoal M)
  last_pursued_time : TimeStamp
deriving DecidableEq

/-- A canonical strand, as stored in a table's queue. -/
structure CanonicalStrand (G S R M : Type) where
  canonical_ex_clause : Canonical (ExClause G S R)
  selected_subgoal : Option (SelectedSubgoal M)
  last_pursued_time : TimeStamp
deriving DecidableEq

/-- Modelled from the spec: all work and results for one u-canonical goal
(table.rs, missing from the tree). -/
structure Table (U G S R M : Type) where
  table_goal : U
  coinductive_goal : Bool
  floundered : Bool
  strands : List (CanonicalStrand G S R M)
  answers : List (Answer G S R)
deriving DecidableEq

/-- Modelled from the spec: fetch the cached answer at an index. -/
def Table.answer {U G S R M : Type} (t : Table U G S R M) (i : AnswerIndex) :
    Option (Answer G S R) :=
  t.answers.get? i

/-- Modelled from the spec: the next unassigned answer index. -/
def Table.next_answer_index {U G S R M : Type} (t : Table U G S R M) : AnswerIndex :=
  t.answers.length

/-- Modelled from the spec: push a strand at the tail of the queue. -/
def Table.enqueue_strand {U G S R M : Type} (t : Table U G S R M)
    (s : CanonicalStrand G S R M) : Table U G S R M :=
  { t with strands := t.strands ++ [s] }

/-- Modelled from the spec: remove all strands from the table, returning
them. -/
def Table.take_strands {U G S R M : Type} (t : Table U G S R M) :
    List (CanonicalStrand G S R M) × Table U G S R M :=
  (t.strands, { t with strands := [] })

/-- Modelled from the spec: mark the table as floundered. -/
def Table.mark_floundered {U G S R M : Type} (t : Table U G S R M) : Table U G S R M :=
  { t with floundered := true }

/-- Modelled from the spec: append an answer unless an identical canonical
answer is already present (answers are deduplicated on their canonical
form); a fresh answer gets the next stable index. -/
def Table.push_answer {U G S R M : Type} [DecidableEq G] [DecidableEq S] [DecidableEq R]
    (t : Table U G S R M) (a : Answer G S R) :
    Option AnswerIndex × Table U G S R M :=
  if t.answers.contains a then
    (none, t)
  else
    (some t.answers.length, { t with answers := t.answers ++ [a] })

/-- Modelled from the spec: dequeue the first strand satisfying the test,
skipping (and keeping) ineligible strands. -/
def dequeue_first {α : Type} (test : α → Bool) : List α → Option (α × List α)
  | [] => none
  | x :: xs =>
    if test x then some (x, xs)
    else (dequeue_first test xs).map (fun p => (p.1, x :: p.2))

/-- Modelled from the spec: the forest of tables plus the global clock
(forest.rs, missing from the tree). -/
structure Forest (U G S R M : Type) where
  tables : List (Table U G S R M)
  clock : TimeStamp
deriving DecidableEq

/-- Modelled from the spec: advance the global clock, returning the new
value. -/
def Forest.increment_clock {U G S R M : Type} (f : Forest U G S R M) :
    Forest U G S R M × TimeStamp :=
  ({ f with clock := f.clock.increment }, f.clock.increment)

/-- Look up a table by index. -/
def Forest.table? {U G S R M : Type} (f : Forest U G S R M) (i : TableIndex) :
    Option (Table U G S R M) :=
  f.tables.get? i

/-- Replace the table at an index (no effect out of range, which the
engine never does). -/
def Forest.setTable {U G S R M : Type} (f : Forest U G S R M) (i : TableIndex)
    (t : Table U G S R M) : Forest U G S R M :=
  { f with tables := f.tables.set i t }

/-- From logic.rs (Forest::answer): fetch an answer, panicking if absent;
the panic is modelled by none. -/
def Forest.answer? {U G S R M : Type} (f : Forest U G S R M) (table : TableIndex)
    (answer : AnswerIndex) : Option (Answer G S R) :=
  (f.table? table).bind (fun t => t.answer answer)

/-- Modelled from the spec: one stack frame (stack.rs, missing from the
tree): the table being solved, the clock at entry, the accumulated cyclic
minimums and the optional active strand. -/
structure StackFrame (G S R I M : Type) where
  table : TableIndex
  clock : TimeStamp
  cyclic_minimums : Minimums
  active_strand : Option (Strand G S R I M)

/-- Modelled from the spec: the stack of active tables; the head of the
list is the top of the stack. -/
abbrev Stack (G S R I M : Type) := List (StackFrame G S R I M)

/-- Modelled from the spec: the frame at a given depth counted from the
bottom of the stack. -/
def Stack.atDepth {G S R I M : Type} (s : Stack G S R I M) (d : StackIndex) :
    Option (StackFrame G S R I M) :=
  s.get? (s.length - 1 - d)

/-- Modelled from the spec: if the table is active on the stack, its depth
from the bottom. -/
def Stack.is_active {G S R I M : Type} (s : Stack G S R I M) (t : TableIndex) :
    Option StackIndex :=
  s.reverse.findIdx? (fun fr => fr.table == t)

/-- Modelled from the spec: push a fresh frame on top of the stack with no
active strand. -/
def Stack.push {G S R I M : Type} (s : Stack G S R I M) (t : TableIndex)
    (cyclic_minimums : Minimums) (clock : TimeStamp) : Stack G S R I M :=
  { table := t, clock := clock, cyclic_minimums := cyclic_minimums,
    active_strand := none } :: s

/-- The whole engine state: the forest plus the current stack
(SolveState in logic.rs). -/
structure SolveState (U G S R I M : Type) where
  forest : Forest U G S R M
  stack : Stack G S R I M

/-- An HH goal, one layer of goal structure (hh.rs, missing from the tree;
constructor list from the spec, simplify.rs and slg.rs into_hh_goal). -/
inductive HhGoal (L D A B P : Type) where
  | ForAll (bindersGoal : B)
  | Exists (bindersGoal : B)
  | Implies (clauses : List P) (goal : L)
  | All (goals : List L)
  | Not (goal : L)
  | Unify (a : A) (b : A)
  | DomainGoal (d : D)
  | CannotProve

/-- The result of canonicalizing a value: the list of free existential
inference variables encountered, and the canonical value.  In the source
(src/src/infer/canonicalize.rs) the canonical value also carries one binder
per free variable, so its binder list is empty exactly when free_vars is
empty; the binders are left implicit here. -/
structure Canonicalized (F G : Type) where
  free_vars : List F
  value : G

/-- The external context operations consumed by the engine (the Context,
ContextOps, InferenceTable, ResolventOps, TruncateOps and UnificationOps
traits of chalk-engine/src/context.rs).  Type parameters: G goal in
environment, L plain goal, S substitution, R region constraint, U
u-canonical goal in environment, M universe map, I inference table, V
environment, D domain goal, P program clause, A unification parameter, B
binders goal, F free inference variable. -/
structure Ops (G L S R U M I V D P A B F : Type) where
  canonicalize_ex_clause : I → ExClause G S R → Canonical (ExClause G S R)
  instantiate_ex_clause : Nat → Canonical (ExClause G S R) → I × ExClause G S R
  instantiate_ucanonical_goal : U → I × S × V × L
  instantiate_answer_subst :
    Nat → Canonical (AnswerSubst G S R) → I × S × List R × List G
  num_universes : U → Nat
  is_coinductive : U → Bool
  program_clauses : V → D → I → Except ClauseFlounder (List P)
  resolvent_clause : I → V → D → S → P → Except NoSolution (I × ExClause G S R)
  truncate_goal : I → G → Option G
  truncate_answer : I → S → Option S
  fully_canonicalize_goal : I → G → U × M
  canonicalize_goal : I → G → Canonicalized F G
  invert_placeholders : I → G → G
  unify_parameters_into_ex_clause :
    I → V → A → A → ExClause G S R → Except NoSolution (I × ExClause G S R)
  instantiate_binders_universally : I → B → I × L
  instantiate_binders_existentially : I → B → I × L
  add_clauses : V → List P → V
  into_hh_goal : L → HhGoal L D A B P
  into_goal : D → L
  goal_in_environment : V → L → G
  goal_from_goal_in_environment : G → L
  map_goal_from_canonical : M → U → G
  map_subst_from_canonical :
    M → Canonical (AnswerSubst G S R) → Canonical (AnswerSubst G S R)
  apply_answer_subst :
    I → ExClause G S R → G → G → Canonical (AnswerSubst G S R) →
    Except NoSolution (I × ExClause G S R)
  is_trivial_substitution : U → Canonical (AnswerSubst G S R) → Bool
  canonicalize_answer_subst :
    I → S → List R → List G → Canonical (AnswerSubst G S R)
  next_subgoal_index : ExClause G S R → Nat

section Engine

variable {G L S R U M I V D P A B F : Type}
variable [DecidableEq G] [DecidableEq L] [DecidableEq S] [DecidableEq R] [DecidableEq U]

/-- Apply a function to the table at an index (no effect out of range; the
engine only uses valid indices). -/
def Forest.modifyTable (f : Forest U G S R M) (i : TableIndex)
    (upd : Table U G S R M → Table U G S R M) : Forest U G S R M :=
  match f.table? i with
  | some t => f.setTable i (upd t)
  | none => f

/-- From logic.rs (Forest::canonicalize_strand / canonicalize_strand_from):
canonicalize a strand's ex-clause, discarding its inference context. -/
def canonicalize_strand (ops : Ops G L S R U M I V D P A B F)
    (strand : Strand G S R I M) : CanonicalStrand G S R M :=
  { canonical_ex_clause := ops.canonicalize_ex_clause strand.infer strand.ex_clause
    selected_subgoal := strand.selected_subgoal
    last_pursued_time := strand.last_pursued_time }

/-- From src/src/infer/invert.rs (InferenceTable::invert): canonicalize the
value; if it contains free existential inference variables, give up;
otherwise replace its free universal placeholders by fresh existential
variables.  The fresh-variable bookkeeping inside the inference context is
abstracted away; the source's assert that the canonical binder list is
empty is vacuous in the branch taken, since the canonical form has one
binder per free variable. -/
def invert (ops : Ops G L S R U M I V D P A B F) (infer : I) (value : G) : Option G :=
  let c := ops.canonicalize_goal infer value
  if c.free_vars.isEmpty then some (ops.invert_placeholders infer c.value)
  else none

/-- From logic.rs (Forest::abstract_positive_literal): a positive subgoal
is u-canonicalized unless it exceeds the truncation size bound, in which
case it flounders (none). -/
def abstract_positive_literal (ops : Ops G L S R U M I V D P A B F)
    (infer : I) (subgoal : G) : Option (U × M) :=
  match ops.truncate_goal infer subgoal with
  | some _ => none
  | none => some (ops.fully_canonicalize_goal infer subgoal)

/-- From logic.rs (Forest::abstract_negative_literal): a negative subgoal
is first inverted; failure to invert flounders the subgoal (none), and the
inverted goal is then truncate-checked and u-canonicalized. -/
def abstract_negative_literal (ops : Ops G L S R U M I V D P A B F)
    (infer : I) (subgoal : G) : Option (U × M) :=
  match invert ops infer subgoal with
  | none => none
  | some inverted_subgoal =>
    match ops.truncate_goal infer inverted_subgoal with
    | some _ => none
    | none => some (ops.fully_canonicalize_goal infer inverted_subgoal)

/-- From simplify.rs (Forest::simplify_hh_goal), the worklist loop.  The
head of the pending list is the top of the source's stack of pending
goals.  The loop is given fuel; exhaustion returns none (the source loop
always terminates on real goals). -/
def simplify_loop (ops : Ops G L S R U M I V D P A B F) :
    Nat → I → ExClause G S R → List (V × HhGoal L D A B P) →
    Option (Except NoSolution (I × ExClause G S R))
  | _, infer, ex_clause, [] => some (Except.ok (infer, ex_clause))
  | 0, _, _, _ :: _ => none
  | fuel + 1, infer, ex_clause, (environment, hh_goal) :: pending =>
    match hh_goal with
    | HhGoal.ForAll subgoal =>
      let (infer', sg) := ops.instantiate_binders_universally infer subgoal
      simplify_loop ops fuel infer' ex_clause ((environment, ops.into_hh_goal sg) :: pending)
    | HhGoal.Exists subgoal =>
      let (infer', sg) := ops.instantiate_binders_existentially infer subgoal
      simplify_loop ops fuel infer' ex_clause ((environment, ops.into_hh_goal sg) :: pending)
    | HhGoal.Implies wc subgoal =>
      let new_environment := ops.add_clauses environment wc
      simplify_loop ops fuel infer ex_clause
        ((new_environment, ops.into_hh_goal subgoal) :: pending)
    | HhGoal.All subgoals =>
      simplify_loop ops fuel infer ex_clause
        ((subgoals.map (fun sg => (environment, ops.into_hh_goal sg))).reverse ++ pending)
    | HhGoal.Not subgoal =>
      simplify_loop ops fuel infer
        { ex_clause with subgoals :=
            ex_clause.subgoals ++ [Literal.Negative (ops.goal_in_environment environment subgoal)] }
        pending
    | HhGoal.Unify a b =>
      match ops.unify_parameters_into_ex_clause infer environment a b ex_clause with
      | Except.ok (infer', ex') => simplify_loop ops fuel infer' ex' pending
      | Except.error e => some (Except.error e)
    | HhGoal.DomainGoal domain_goal =>
      simplify_loop ops fuel infer
        { ex_clause with subgoals :=
            ex_clause.subgoals ++
              [Literal.Positive (ops.goal_in_environment environment (ops.into_goal domain_goal))] }
        pending
    | HhGoal.CannotProve =>
      simplify_loop ops fuel infer { ex_clause with ambiguous := true } pending

/-- From simplify.rs (Forest::simplify_hh_goal): simplify an HH goal into
an ex-clause of literals. -/
def simplify_hh_goal (ops : Ops G L S R U M I V D P A B F) (fuel : Nat) (infer : I)
    (subst : S) (initial_environment : V) (initial_hh_goal : HhGoal L D A B P) :
    Option (Except NoSolution (I × ExClause G S R)) :=
  let ex_clause : ExClause G S R :=
    { subst := subst, ambiguous := false, constraints := [], subgoals := [],
      delayed_subgoals := [], answer_time := 0, floundered_subgoals := [] }
  simplify_loop ops fuel infer ex_clause [(initial_environment, initial_hh_goal)]

/-- From logic.rs (Forest::push_initial_strands_instantiated): seed a fresh
table with its initial strands: resolvents against the program clauses for
a domain goal, or the single HH-simplification strand otherwise; a
floundered clause source marks the table floundered. -/
def push_initial_strands_instantiated (ops : Ops G L S R U M I V D P A B F) (fuel : Nat)
    (f : Forest U G S R M) (table : TableIndex) (infer : I) (subst : S)
    (environment : V) (goal : L) : Option (Forest U G S R M) :=
  match ops.into_hh_goal goal with
  | HhGoal.DomainGoal domain_goal =>
    match ops.program_clauses environment domain_goal infer with
    | Except.ok clauses =>
      some (clauses.foldl
        (fun facc clause =>
          match ops.resolvent_clause infer environment domain_goal subst clause with
          | Except.ok (infer', resolvent) =>
            let strand : Strand G S R I M :=
              { infer := infer', ex_clause := resolvent,
                selected_subgoal := none, last_pursued_time := 0 }
            facc.modifyTable table (fun t => t.enqueue_strand (canonicalize_strand ops strand))
          | Except.error _ => facc)
        f)
    | Except.error _ => some (f.modifyTable table Table.mark_floundered)
  | hh_goal =>
    match simplify_hh_goal ops fuel infer subst environment hh_goal with
    | none => none
    | some (Except.ok (infer', ex_clause)) =>
      let strand : Strand G S R I M :=
        { infer := infer', ex_clause := ex_clause,
          selected_subgoal := none, last_pursued_time := 0 }
      some (f.modifyTable table (fun t => t.enqueue_strand (canonicalize_strand ops strand)))
    | some (Except.error _) => some f

/-- From logic.rs (Forest::push_initial_strands): instantiate the table
goal with fresh inference variables and seed the initial strands. -/
def push_initial_strands (ops : Ops G L S R U M I V D P A B F) (fuel : Nat)
    (f : Forest U G S R M) (table : TableIndex) : Option (Forest U G S R M) :=
  match f.table? table with
  | none => none
  | some tbl =>
    let (infer, subst, environment, goal) := ops.instantiate_ucanonical_goal tbl.table_goal
    push_initial_strands_instantiated ops fuel f table infer subst environment goal

/-- From logic.rs (Forest::get_or_create_table_for_ucanonical_goal): search
for an existing table for the goal; create and seed one if absent. -/
def get_or_create_table_for_ucanonical_goal (ops : Ops G L S R U M I V D P A B F)
    (fuel : Nat) (f : Forest U G S R M) (goal : U) :
    Option (Forest U G S R M × TableIndex) :=
  match f.tables.findIdx? (fun t => t.table_goal == goal) with
  | some table => some (f, table)
  | none =>
    let coinductive_goal := ops.is_coinductive goal
    let table := f.tables.length
    let f₁ : Forest U G S R M :=
      { f with tables := f.tables ++
          [{ table_goal := goal, coinductive_goal := coinductive_goal,
             floundered := false, strands := [], answers := [] }] }
    (push_initial_strands ops fuel f₁ table).map (fun f₂ => (f₂, table))

/-- From logic.rs (Forest::get_or_create_table_for_subgoal): abstract the
literal to u-canonical form; flounder (inner none) when abstraction fails,
otherwise return the table for the abstracted goal. -/
def get_or_create_table_for_subgoal (ops : Ops G L S R U M I V D P A B F)
    (fuel : Nat) (f : Forest U G S R M) (infer : I) (subgoal : Literal G) :
    Option (Forest U G S R M × Option (TableIndex × M)) :=
  let abstracted :=
    match subgoal with
    | Literal.Positive sg => abstract_positive_literal ops infer sg
    | Literal.Negative sg => abstract_negative_literal ops infer sg
  match abstracted with
  | none => some (f, none)
  | some (ucanonical_subgoal, universe_map) =>
    match get_or_create_table_for_ucanonical_goal ops fuel f ucanonical_subgoal with
    | none => none
    | some (f', table) => some (f', some (table, universe_map))

/-- From logic.rs (Forest::any_future_answer): if the answer at the index
is cached, test its normalized substitution; otherwise test the working
substitution of every currently-queued strand of the table. -/
def any_future_answer (f : Forest U G S R M) (table : TableIndex)
    (answer : AnswerIndex) (test : S → Bool) : Option Bool :=
  match f.table? table with
  | none => none
  | some tbl =>
    match tbl.answer answer with
    | some a => some (test (inference_normalized_subst_from_subst a.subst))
    | none =>
      some (tbl.strands.any (fun strand =>
        test (inference_normalized_subst_from_ex_clause strand.canonical_ex_clause)))

/-- Modelled from the spec: pop the top frame; if no frame remains, return
the inner none; otherwise take the new top frame's active strand, which
must exist (its absence is a panic, the outer none). -/
def Stack.pop_and_take_caller_strand :
    Stack G S R I M → Option (Option (Strand G S R I M × Stack G S R I M))
  | [] => some none
  | [_] => some none
  | _ :: caller :: rest =>
    match caller.active_strand with
    | none => none
    | some strand => some (some (strand, { caller with active_strand := none } :: rest))

/-- Helper of unwind_stack: each frame below the popped top returns its
active strand (which must exist; its absence is a panic) to its own
table. -/
def unwind_frames (ops : Ops G L S R U M I V D P A B F) (f : Forest U G S R M) :
    Stack G S R I M → Option (Forest U G S R M)
  | [] => some f
  | caller :: rest =>
    match caller.active_strand with
    | none => none
    | some strand =>
      let f' := f.modifyTable caller.table
        (fun t => t.enqueue_strand (canonicalize_strand ops strand))
      unwind_frames ops f' rest

/-- From logic.rs (SolveState::unwind_stack): pop every frame, returning
each remaining frame's active strand to that frame's table (at the end of
its queue).  The popped top frame's own active strand, if any, is
dropped. -/
def unwind_stack (ops : Ops G L S R U M I V D P A B F)
    (st : SolveState U G S R I M) : Option (SolveState U G S R I M) :=
  match st.stack with
  | [] => some ⟨st.forest, []⟩
  | _ :: rest => (unwind_frames ops st.forest rest).map (fun f => ⟨f, []⟩)

/-- From logic.rs (SolveState::clear_strands_after_cycle): recursively
clear the strands of every table reached through the selected subgoals of
the given strands; a strand without a selected subgoal is a panic. The
recursion is given fuel; the source terminates because strands are
physically removed from their tables. -/
def clear_strands_after_cycle :
    Nat → Forest U G S R M → List (CanonicalStrand G S R M) → Option (Forest U G S R M)
  | _, f, [] => some f
  | 0, _, _ :: _ => none
  | fuel + 1, f, strand :: rest =>
    match strand.selected_subgoal with
    | none => none
    | some selected_subgoal =>
      match f.table? selected_subgoal.subgoal_table with
      | none => none
      | some tbl =>
        let (strands, tbl') := tbl.take_strands
        let f₁ := f.setTable selected_subgoal.subgoal_table tbl'
        match clear_strands_after_cycle fuel f₁ strands with
        | none => none
        | some f₂ => clear_strands_after_cycle fuel f₂ rest

/-- From logic.rs (SolveState::on_no_strands_left): handle the situation
in which the top table has no strand eligible at the current clock.  If
the table has no strands at all, its failure is propagated to the caller
frame (success of a negative literal, failure of a positive one), or
NoMoreSolutions at the root.  Otherwise the frame is part of a cycle: a
cycle-locked frame yields NegativeCycle or clears the cycle and yields
QuantumExceeded; a frame inside a larger cycle propagates its minimums to
the caller. -/
def on_no_strands_left (ops : Ops G L S R U M I V D P A B F) (fuel : Nat)
    (st : SolveState U G S R I M) :
    Option (SolveState U G S R I M × Except RootSearchFail Unit) :=
  match st.stack with
  | [] => none
  | top :: rest =>
    match st.forest.table? top.table with
    | none => none
    | some tbl =>
      if tbl.strands.length = 0 then
        match rest with
        | [] => some (⟨st.forest, []⟩, Except.error RootSearchFail.NoMoreSolutions)
        | caller :: rest' =>
          match caller.active_strand with
          | none => none
          | some caller_strand =>
            match caller_strand.selected_subgoal with
            | none => none
            | some caller_selected_subgoal =>
              let caller_strand₁ := { caller_strand with selected_subgoal := none }
              match caller_strand₁.ex_clause.subgoals.get? caller_selected_subgoal.subgoal_index with
              | none => none
              | some (Literal.Positive _) =>
                match unwind_stack ops ⟨st.forest, { caller with active_strand := none } :: rest'⟩ with
                | none => none
                | some st' => some (st', Except.error RootSearchFail.QuantumExceeded)
              | some (Literal.Negative _) =>
                let ex := caller_strand₁.ex_clause
                let ex' := { ex with subgoals := ex.subgoals.eraseIdx caller_selected_subgoal.subgoal_index }
                let caller_strand₂ := { caller_strand₁ with ex_clause := ex' }
                some (⟨st.forest, { caller with active_strand := some caller_strand₂ } :: rest'⟩,
                  Except.ok ())
      else
        let clock := top.clock
        let cyclic_minimums := top.cyclic_minimums
        if cyclic_minimums.positive ≥ clock ∧ cyclic_minimums.negative ≥ clock then
          if cyclic_minimums.negative < TimeStamp.MAX then
            match unwind_stack ops st with
            | none => none
            | some st' => some (st', Except.error RootSearchFail.NegativeCycle)
          else
            let (cyclic_strands, tbl') := tbl.take_strands
            let f₁ := st.forest.setTable top.table tbl'
            match clear_strands_after_cycle fuel f₁ cyclic_strands with
            | none => none
            | some f₂ =>
              match unwind_stack ops ⟨f₂, st.stack⟩ with
              | none => none
              | some st' => some (st', Except.error RootSearchFail.QuantumExceeded)
        else
          match rest with
          | [] => none
          | caller :: rest' =>
            match caller.active_strand with
            | none => none
            | some caller_strand =>
              match caller_strand.selected_subgoal with
              | none => none
              | some caller_selected_subgoal =>
                match caller_strand.ex_clause.subgoals.get? caller_selected_subgoal.subgoal_index with
                | none => none
                | some lit =>
                  let caller₁ :=
                    match lit with
                    | Literal.Positive _ =>
                      { caller with cyclic_minimums :=
                          caller.cyclic_minimums.take_minimums cyclic_minimums }
                    | Literal.Negative _ =>
                      let mins : Minimums :=
                        { positive := caller.clock
                          negative := cyclic_minimums.minimum_of_pos_and_neg }
                      { caller with cyclic_minimums := caller.cyclic_minimums.take_minimums mins }
                  let f' := st.forest.modifyTable caller₁.table
                    (fun t => t.enqueue_strand (canonicalize_strand ops caller_strand))
                  some (⟨f', { caller₁ with active_strand := none } :: rest'⟩, Except.ok ())

/-- From logic.rs (SolveState::merge_answer_into_strand): merge the
available answer for the strand's selected subgoal into the strand.  For a
positive subgoal, a clone of the strand pursuing the next answer index is
enqueued on the current table first; then the subgoal is removed and the
answer substitution applied (failure discards the strand, unwinding with
QuantumExceeded).  For a negative subgoal, an unconditional answer refutes
the strand; an ambiguous one marks it ambiguous; delayed subgoals in the
answer are a panic. -/
def merge_answer_into_strand (ops : Ops G L S R U M I V D P A B F)
    (st : SolveState U G S R I M) (strand : Strand G S R I M) :
    Option (SolveState U G S R I M × Except RootSearchFail (Strand G S R I M)) :=
  match strand.selected_subgoal with
  | none => none
  | some selected_subgoal =>
    match strand.ex_clause.subgoals.get? selected_subgoal.subgoal_index with
    | none => none
    | some lit =>
      let enqueued :
          Option (SolveState U G S R I M) :=
        match lit with
        | Literal.Positive _ =>
          let next_subgoal :=
            { selected_subgoal with answer_index := selected_subgoal.answer_index + 1 }
          let next_strand : Strand G S R I M :=
            { infer := strand.infer, ex_clause := strand.ex_clause,
              selected_subgoal := some next_subgoal,
              last_pursued_time := strand.last_pursued_time }
          match st.stack with
          | [] => none
          | top :: _ =>
            some ⟨st.forest.modifyTable top.table
                (fun t => t.enqueue_strand (canonicalize_strand ops next_strand)),
              st.stack⟩
        | Literal.Negative _ => some st
      match enqueued with
      | none => none
      | some st₁ =>
        let strand₁ : Strand G S R I M :=
          { strand with
            selected_subgoal := none
            ex_clause := { strand.ex_clause with
              subgoals := strand.ex_clause.subgoals.eraseIdx selected_subgoal.subgoal_index } }
        match lit with
        | Literal.Positive subgoal =>
          match st₁.forest.table? selected_subgoal.subgoal_table with
          | none => none
          | some subtbl =>
            let table_goal :=
              ops.map_goal_from_canonical selected_subgoal.universe_map subtbl.table_goal
            match st₁.forest.answer? selected_subgoal.subgoal_table selected_subgoal.answer_index with
            | none => none
            | some answer =>
              let answer_subst :=
                ops.map_subst_from_canonical selected_subgoal.universe_map answer.subst
              match ops.apply_answer_subst strand₁.infer strand₁.ex_clause subgoal table_goal
                  answer_subst with
              | Except.ok (infer', ex') =>
                let ex₂ := if answer.ambiguous then { ex' with ambiguous := true } else ex'
                let ex₃ := { ex₂ with answer_time := ex₂.answer_time.increment }
                some (st₁, Except.ok { strand₁ with infer := infer', ex_clause := ex₃ })
              | Except.error _ =>
                match unwind_stack ops st₁ with
                | none => none
                | some st₂ => some (st₂, Except.error RootSearchFail.QuantumExceeded)
        | Literal.Negative _ =>
          match st₁.forest.answer? selected_subgoal.subgoal_table selected_subgoal.answer_index with
          | none => none
          | some answer =>
            if has_delayed_subgoals answer.subst then
              none
            else if !answer.ambiguous then
              match unwind_stack ops st₁ with
              | none => none
              | some st₂ => some (st₂, Except.error RootSearchFail.QuantumExceeded)
            else
              some (st₁, Except.ok { strand₁ with
                ex_clause := { strand₁.ex_clause with ambiguous := true } })

/-- From logic.rs (SolveState::on_coinductive_subgoal): delay a positive
subgoal that closed a coinductive cycle; a negative literal here is a
panic, as is a violation of the assert that both tables are coinductive. -/
def on_coinductive_subgoal
    (st : SolveState U G S R I M) (strand : Strand G S R I M) :
    Option (SolveState U G S R I M × Except RootSearchFail Unit) :=
  match strand.selected_subgoal with
  | none => none
  | some selected_subgoal =>
    match strand.ex_clause.subgoals.get? selected_subgoal.subgoal_index with
    | none => none
    | some lit =>
      let strand₁ : Strand G S R I M :=
        { strand with
          selected_subgoal := none
          ex_clause := { strand.ex_clause with
            subgoals := strand.ex_clause.subgoals.eraseIdx selected_subgoal.subgoal_index } }
      match lit with
      | Literal.Positive subgoal =>
        match st.stack with
        | [] => none
        | top :: rest =>
          match st.forest.table? top.table, st.forest.table? selected_subgoal.subgoal_table with
          | some t₁, some t₂ =>
            if t₁.coinductive_goal ∧ t₂.coinductive_goal then
              let strand₂ := { strand₁ with
                ex_clause := { strand₁.ex_clause with
                  delayed_subgoals := strand₁.ex_clause.delayed_subgoals ++ [subgoal] } }
              some (⟨st.forest, { top with active_strand := some strand₂ } :: rest⟩, Except.ok ())
            else none
          | _, _ => none
      | Literal.Negative _ => none

/-- From logic.rs (SolveState::on_positive_cycle): fold the cycle's
minimums into the top frame (a negative literal folds the minimum of both
components into the negative axis) and return the strand, with its
selection intact, to the tail of its table's queue. -/
def on_positive_cycle (ops : Ops G L S R U M I V D P A B F)
    (st : SolveState U G S R I M) (strand : Strand G S R I M) (minimums : Minimums) :
    Option (SolveState U G S R I M × Except RootSearchFail Unit) :=
  match strand.selected_subgoal with
  | none => none
  | some selected_subgoal =>
    match strand.ex_clause.subgoals.get? selected_subgoal.subgoal_index with
    | none => none
    | some lit =>
      match st.stack with
      | [] => none
      | top :: rest =>
        let top₁ :=
          match lit with
          | Literal.Positive _ =>
            { top with cyclic_minimums := top.cyclic_minimums.take_minimums minimums }
          | Literal.Negative _ =>
            let mins : Minimums :=
              { positive := top.clock, negative := minimums.minimum_of_pos_and_neg }
            { top with cyclic_minimums := top.cyclic_minimums.take_minimums mins }
        let f' := st.forest.modifyTable top₁.table
          (fun t => t.enqueue_strand (canonicalize_strand ops strand))
        some (⟨f', top₁ :: rest⟩, Except.ok ())

/-- From logic.rs (SolveState::top_of_stack_is_coinductive_from): true if
every table from the given depth to the top of the stack is coinductive. -/
def top_of_stack_is_coinductive_from (f : Forest U G S R M) (stack : Stack G S R I M)
    (depth : StackIndex) : Bool :=
  (stack.take (stack.length - depth)).all (fun fr =>
    match f.table? fr.table with
    | some t => t.coinductive_goal
    | none => false)

/-- From logic.rs (SolveState::on_subgoal_selected): pursue the selected
subgoal: merge a cached answer, detect a (coinductive or positive) cycle
when the subgoal table is already on the stack, or push a fresh frame for
it. -/
def on_subgoal_selected (ops : Ops G L S R U M I V D P A B F)
    (st : SolveState U G S R I M) (strand : Strand G S R I M) :
    Option (SolveState U G S R I M × Except RootSearchFail Unit) :=
  match strand.selected_subgoal with
  | none => none
  | some selected_subgoal =>
    match st.forest.table? selected_subgoal.subgoal_table with
    | none => none
    | some subtbl =>
      if subtbl.floundered then none
      else
        match subtbl.answer selected_subgoal.answer_index with
        | some _ =>
          match merge_answer_into_strand ops st strand with
          | none => none
          | some (st', Except.error e) => some (st', Except.error e)
          | some (st', Except.ok strand') =>
            match st'.stack with
            | [] => none
            | top :: rest =>
              some (⟨st'.forest, { top with active_strand := some strand' } :: rest⟩, Except.ok ())
        | none =>
          if subtbl.next_answer_index = selected_subgoal.answer_index then
            match st.stack.is_active selected_subgoal.subgoal_table with
            | some cyclic_depth =>
              match st.stack.atDepth cyclic_depth with
              | none => none
              | some cyclic_frame =>
                let minimums : Minimums :=
                  { positive := cyclic_frame.clock, negative := TimeStamp.MAX }
                if top_of_stack_is_coinductive_from st.forest st.stack cyclic_depth then
                  on_coinductive_subgoal st strand
                else
                  on_positive_cycle ops st strand minimums
            | none =>
              match st.stack with
              | [] => none
              | top :: rest =>
                let (f', new_clock) := st.forest.increment_clock
                let stack' := Stack.push ({ top with active_strand := some strand } :: rest)
                  selected_subgoal.subgoal_table Minimums.MAX new_clock
                some (⟨f', stack'⟩, Except.ok ())
          else none

/-- From logic.rs (SolveState::pursue_answer): a strand with no subgoals
and no floundered subgoals is an answer candidate.  A too-large answer
flounders the whole table; otherwise the canonical answer is pushed
(deduplicated), and a newly published trivial answer (not ambiguous,
trivial substitution, empty constraints) clears the table's strand
queue — the green cut. -/
def pursue_answer (ops : Ops G L S R U M I V D P A B F)
    (st : SolveState U G S R I M) (strand : Strand G S R I M) :
    Option (SolveState U G S R I M × Option AnswerIndex) :=
  match st.stack with
  | [] => none
  | top :: _ =>
    let table := top.table
    if strand.ex_clause.subgoals = [] ∧ strand.ex_clause.floundered_subgoals = [] then
      match ops.truncate_answer strand.infer strand.ex_clause.subst with
      | some _ =>
        some (⟨st.forest.modifyTable table Table.mark_floundered, st.stack⟩, none)
      | none =>
        let subst := ops.canonicalize_answer_subst strand.infer strand.ex_clause.subst
          strand.ex_clause.constraints strand.ex_clause.delayed_subgoals
        let answer : Answer G S R := { subst := subst, ambiguous := strand.ex_clause.ambiguous }
        match st.forest.table? table with
        | none => none
        | some tbl =>
          let is_trivial_answer :=
            !answer.ambiguous &&
              ops.is_trivial_substitution tbl.table_goal answer.subst &&
              empty_constraints answer.subst
          match tbl.push_answer answer with
          | (some answer_index, tbl') =>
            let tbl'' := if is_trivial_answer then (tbl'.take_strands).2 else tbl'
            some (⟨st.forest.setTable table tbl'', st.stack⟩, some answer_index)
          | (none, _) => some (st, none)
    else none

/-- From logic.rs (SolveState::create_refinement_strand): when a published
root answer has delayed subgoals, build a strand that re-proves them: same
substitution, constraints and ambiguity, with the delayed subgoals turned
into positive subgoals, filtering out trivial self-cycles (goals equal to
the table's own goal). -/
def create_refinement_strand (ops : Ops G L S R U M I V D P A B F)
    (f : Forest U G S R M) (table : TableIndex) (answer : Answer G S R)
    (table_goal : L) : Option (Option (CanonicalStrand G S R M)) :=
  if has_delayed_subgoals answer.subst then
    match f.table? table with
    | none => none
    | some tbl =>
      let num_universes := ops.num_universes tbl.table_goal
      let (infer, subst, constraints, delayed_subgoals) :=
        ops.instantiate_answer_subst num_universes answer.subst
      let filtered_delayed_subgoals :=
        (delayed_subgoals.filter
          (fun d => !(ops.goal_from_goal_in_environment d == table_goal))).map
          Literal.Positive
      let strand : Strand G S R I M :=
        { infer := infer
          ex_clause :=
            { subst := subst, ambiguous := answer.ambiguous, constraints := constraints,
              subgoals := filtered_delayed_subgoals, delayed_subgoals := [],
              answer_time := 0, floundered_subgoals := [] }
          selected_subgoal := none
          last_pursued_time := 0 }
      some (some (canonicalize_strand ops strand))
  else
    some none

/-- From logic.rs (SolveState::on_no_remaining_subgoals): the strand has
proven its ex-clause.  A new answer is merged into the caller strand (or,
at the root, a refinement strand is enqueued when the answer carries
delayed subgoals and the root answer is reported available); a duplicate
answer unwinds with QuantumExceeded. -/
def on_no_remaining_subgoals (ops : Ops G L S R U M I V D P A B F)
    (st : SolveState U G S R I M) (strand : Strand G S R I M) :
    Option (SolveState U G S R I M × NoRemainingSubgoalsResult) :=
  match pursue_answer ops st strand with
  | none => none
  | some (st₁, some answer_index) =>
    match st₁.stack with
    | [] => none
    | top :: rest =>
      let table := top.table
      match rest with
      | [] =>
        let f := st₁.forest
        match f.table? table with
        | none => none
        | some tbl =>
          let (_, _, _, table_goal) := ops.instantiate_ucanonical_goal tbl.table_goal
          match f.answer? table answer_index with
          | none => none
          | some answer =>
            match create_refinement_strand ops f table answer table_goal with
            | none => none
            | some (some strand') =>
              some (⟨f.modifyTable table (fun t => t.enqueue_strand strand'), []⟩,
                NoRemainingSubgoalsResult.RootAnswerAvailable)
            | some none =>
              some (⟨f, []⟩, NoRemainingSubgoalsResult.RootAnswerAvailable)
      | caller :: rest' =>
        match caller.active_strand with
        | none => none
        | some caller_strand =>
          let st₂ : SolveState U G S R I M :=
            ⟨st₁.forest, { caller with active_strand := none } :: rest'⟩
          match merge_answer_into_strand ops st₂ caller_strand with
          | none => none
          | some (st₃, Except.error e) => some (st₃, NoRemainingSubgoalsResult.RootSearchFail e)
          | some (st₃, Except.ok caller') =>
            match st₃.stack with
            | [] => none
            | top₃ :: rest₃ =>
              some (⟨st₃.forest, { top₃ with active_strand := some caller' } :: rest₃⟩,
                NoRemainingSubgoalsResult.Success)
  | some (st₁, none) =>
    match unwind_stack ops st₁ with
    | none => none
    | some st₂ =>
      some (st₂, NoRemainingSubgoalsResult.RootSearchFail RootSearchFail.QuantumExceeded)

/-- Semantics of Vec::swap_remove: replace the element at the index by the
last element and shrink the list by one. -/
def swap_remove {α : Type} (l : List α) (i : Nat) : List α :=
  match l.getLast? with
  | none => l
  | some last => (l.set i last).dropLast

/-- From logic.rs (SolveState::reconsider_floundered_subgoals), the body of
the reverse-indexed loop: visit indices i-1, i-2, ..., 0 of the floundered
list, moving every entry whose floundered time is earlier than the answer
time to the end of the subgoal list (via swap_remove). -/
def reconsider_loop (answer_time : TimeStamp) :
    Nat → List (FlounderedSubgoal G) → List (Literal G) →
    List (FlounderedSubgoal G) × List (Literal G)
  | 0, floundered_subgoals, subgoals => (floundered_subgoals, subgoals)
  | i + 1, floundered_subgoals, subgoals =>
    match floundered_subgoals.get? i with
    | none => reconsider_loop answer_time i floundered_subgoals subgoals
    | some fs =>
      if fs.floundered_time < answer_time then
        reconsider_loop answer_time i (swap_remove floundered_subgoals i)
          (subgoals ++ [fs.floundered_literal])
      else
        reconsider_loop answer_time i floundered_subgoals subgoals

/-- From logic.rs (SolveState::reconsider_floundered_subgoals): move every
floundered subgoal whose floundered time predates the current answer time
back into the subgoal list. -/
def reconsider_floundered_subgoals (ex_clause : ExClause G S R) : ExClause G S R :=
  let r := reconsider_loop ex_clause.answer_time
    ex_clause.floundered_subgoals.length ex_clause.floundered_subgoals ex_clause.subgoals
  { ex_clause with subgoals := r.2, floundered_subgoals := r.1 }

/-- From logic.rs (SolveState::flounder_subgoal): move the subgoal at the
index from the subgoal list to the floundered list, stamped with the
current answer time. -/
def flounder_subgoal (ex_clause : ExClause G S R) (subgoal_index : Nat) :
    Option (ExClause G S R) :=
  match ex_clause.subgoals.get? subgoal_index with
  | none => none
  | some floundered_literal =>
    some { ex_clause with
      subgoals := ex_clause.subgoals.eraseIdx subgoal_index
      floundered_subgoals := ex_clause.floundered_subgoals ++
        [{ floundered_literal := floundered_literal
           floundered_time := ex_clause.answer_time }] }

/-- From logic.rs (SolveState::propagate_floundered_subgoal): a strand
whose selected subgoal floundered keeps a positive subgoal (floundered, to
be retried later; returns false) but is dead on a negative one (returns
true). -/
def propagate_floundered_subgoal (strand : Strand G S R I M) :
    Option (Bool × Strand G S R I M) :=
  match strand.selected_subgoal with
  | none => none
  | some selected_subgoal =>
    match strand.ex_clause.subgoals.get? selected_subgoal.subgoal_index with
    | none => none
    | some (Literal.Positive _) =>
      match flounder_subgoal strand.ex_clause selected_subgoal.subgoal_index with
      | none => none
      | some ex' =>
        some (false, { strand with selected_subgoal := none, ex_clause := ex' })
    | some (Literal.Negative _) =>
      some (true, { strand with selected_subgoal := none })

/-- Helper of on_subgoal_selection_flounder: the loop body, applied to the
current top frame and the frames below it.  Each iteration marks the top
table floundered, pops it and examines the caller's strand. -/
def flounder_walk (ops : Ops G L S R U M I V D P A B F) (f : Forest U G S R M)
    (top : StackFrame G S R I M) :
    Stack G S R I M → Option (SolveState U G S R I M × RootSearchFail)
  | [] =>
    some (⟨f.modifyTable top.table Table.mark_floundered, []⟩, RootSearchFail.Floundered)
  | caller :: rest' =>
    let f₁ := f.modifyTable top.table Table.mark_floundered
    match caller.active_strand with
    | none => none
    | some strand =>
      match propagate_floundered_subgoal strand with
      | none => none
      | some (true, _) =>
        flounder_walk ops f₁ { caller with active_strand := none } rest'
      | some (false, strand') =>
        let f₂ := f₁.modifyTable caller.table
          (fun t => t.enqueue_strand (canonicalize_strand ops strand'))
        match unwind_stack ops ⟨f₂, { caller with active_strand := none } :: rest'⟩ with
        | none => none
        | some st' => some (st', RootSearchFail.QuantumExceeded)

/-- From logic.rs (SolveState::on_subgoal_selection_flounder): the
floundered strand is discarded; walk up the stack marking each popped
table floundered; a caller that depended positively re-enqueues its strand
(floundering that subgoal) and the rest unwinds with QuantumExceeded; a
negative dependency kills the caller strand too; at the root, return
Floundered. -/
def on_subgoal_selection_flounder (ops : Ops G L S R U M I V D P A B F) :
    SolveState U G S R I M → Option (SolveState U G S R I M × RootSearchFail)
  | ⟨_, []⟩ => none
  | ⟨f, top :: rest⟩ => flounder_walk ops f top rest

/-- From logic.rs (SolveState::select_subgoal): repeatedly select a
subgoal for the strand: when the subgoal list is empty, reconsider
floundered subgoals (still-empty means NoRemainingSubgoals when nothing
had floundered, and Floundered otherwise); pick the next subgoal by the
policy hook and obtain or create its table, floundering the subgoal when
abstraction fails; a selected subgoal whose table is floundered is
propagated.  The loop is given fuel (the source loop terminates because a
re-floundered subgoal is never moved back at the same answer time). -/
def select_subgoal (ops : Ops G L S R U M I V D P A B F) :
    Nat → SolveState U G S R I M → Strand G S R I M →
    Option (SolveState U G S R I M × Strand G S R I M × SubGoalSelection)
  | 0, _, _ => none
  | fuel + 1, st, strand =>
    match strand.selected_subgoal with
    | none =>
      if strand.ex_clause.subgoals.length = 0 then
        if strand.ex_clause.floundered_subgoals.isEmpty then
          some (st, strand, SubGoalSelection.NoRemainingSubgoals)
        else
          let strand₁ := { strand with ex_clause := reconsider_floundered_subgoals strand.ex_clause }
          if strand₁.ex_clause.subgoals.isEmpty then
            if strand₁.ex_clause.floundered_subgoals.isEmpty then none
            else some (st, strand₁, SubGoalSelection.Floundered)
          else select_subgoal ops fuel st strand₁
      else
        let subgoal_index := ops.next_subgoal_index strand.ex_clause
        match strand.ex_clause.subgoals.get? subgoal_index with
        | none => none
        | some lit =>
          match get_or_create_table_for_subgoal ops fuel st.forest strand.infer lit with
          | none => none
          | some (f', some (subgoal_table, universe_map)) =>
            let sel : SelectedSubgoal M :=
              { subgoal_index := subgoal_index, subgoal_table := subgoal_table,
                answer_index := 0, universe_map := universe_map }
            let strand₁ := { strand with selected_subgoal := some sel }
            select_subgoal ops fuel ⟨f', st.stack⟩ strand₁
          | some (f', none) =>
            match flounder_subgoal strand.ex_clause subgoal_index with
            | none => none
            | some ex' => select_subgoal ops fuel ⟨f', st.stack⟩ { strand with ex_clause := ex' }
    | some selected_subgoal =>
      match st.forest.table? selected_subgoal.subgoal_table with
      | none => none
      | some subtbl =>
        if subtbl.floundered then
          match propagate_floundered_subgoal strand with
          | none => none
          | some (true, strand') => some (st, strand', SubGoalSelection.Floundered)
          | some (false, strand') => select_subgoal ops fuel st strand'
        else
          some (st, strand, SubGoalSelection.Selected)

/-- The main loop of ensure_root_answer (logic.rs), one iteration per unit
of fuel: take the active strand of the top frame or dequeue the next
strand not yet pursued at this clock (instantiating it), select a subgoal
for it and dispatch; with no eligible strand, handle no-strands-left. -/
def ensure_loop (ops : Ops G L S R U M I V D P A B F) :
    Nat → SolveState U G S R I M →
    Option (SolveState U G S R I M × Except RootSearchFail Unit)
  | 0, _ => none
  | fuel + 1, st =>
    match st.stack with
    | [] => none
    | top :: rest =>
      let clock := top.clock
      let table := top.table
      let next_strand : Option (Option (SolveState U G S R I M × Strand G S R I M)) :=
        match top.active_strand with
        | some strand => some (some (⟨st.forest, { top with active_strand := none } :: rest⟩, strand))
        | none =>
          match st.forest.table? table with
          | none => none
          | some tbl =>
            match dequeue_first (fun s => decide (s.last_pursued_time < clock)) tbl.strands with
            | none => some none
            | some (canonical_strand, remaining) =>
              let f₁ := st.forest.setTable table { tbl with strands := remaining }
              let num_universes := ops.num_universes tbl.table_goal
              let (infer, ex_clause) :=
                ops.instantiate_ex_clause num_universes canonical_strand.canonical_ex_clause
              let strand : Strand G S R I M :=
                { infer := infer, ex_clause := ex_clause,
                  selected_subgoal := canonical_strand.selected_subgoal,
                  last_pursued_time := canonical_strand.last_pursued_time }
              some (some (⟨f₁, st.stack⟩, strand))
      match next_strand with
      | none => none
      | some none =>
        match on_no_strands_left ops fuel st with
        | none => none
        | some (st₁, Except.ok ()) => ensure_loop ops fuel st₁
        | some (st₁, Except.error e) => some (st₁, Except.error e)
      | some (some (st₁, strand)) =>
        let strand := { strand with last_pursued_time := clock }
        match select_subgoal ops fuel st₁ strand with
        | none => none
        | some (st₂, strand', SubGoalSelection.Selected) =>
          match on_subgoal_selected ops st₂ strand' with
          | none => none
          | some (st₃, Except.ok ()) => ensure_loop ops fuel st₃
          | some (st₃, Except.error e) => some (st₃, Except.error e)
        | some (st₂, strand', SubGoalSelection.NoRemainingSubgoals) =>
          match on_no_remaining_subgoals ops st₂ strand' with
          | none => none
          | some (st₃, NoRemainingSubgoalsResult.RootAnswerAvailable) => some (st₃, Except.ok ())
          | some (st₃, NoRemainingSubgoalsResult.RootSearchFail e) => some (st₃, Except.error e)
          | some (st₃, NoRemainingSubgoalsResult.Success) => ensure_loop ops fuel st₃
        | some (st₂, _, SubGoalSelection.Floundered) =>
          match on_subgoal_selection_flounder ops st₂ with
          | none => none
          | some (st₃, e) => some (st₃, Except.error e)

/-- From logic.rs (SolveState::ensure_root_answer): a floundered table
fails with Floundered; a cached answer at the index succeeds immediately;
otherwise the requested index must be the next one, a frame is pushed with
a fresh clock, and the main loop runs. -/
def ensure_root_answer (ops : Ops G L S R U M I V D P A B F) (fuel : Nat)
    (st : SolveState U G S R I M) (initial_table : TableIndex)
    (initial_answer : AnswerIndex) :
    Option (SolveState U G S R I M × Except RootSearchFail Unit) :=
  match st.forest.table? initial_table with
  | none => none
  | some tbl =>
    if tbl.floundered then some (st, Except.error RootSearchFail.Floundered)
    else
      match tbl.answer initial_answer with
      | some _ => some (st, Except.ok ())
      | none =>
        if tbl.next_answer_index = initial_answer then
          let (f₁, new_clock) := st.forest.increment_clock
          ensure_loop ops fuel ⟨f₁, Stack.push st.stack initial_table Minimums.MAX new_clock⟩
        else none

/-- From logic.rs (Forest::root_answer): run ensure_root_answer on a fresh
stack; on success the stack must be empty and the stored answer is
fetched: an answer with delayed subgoals is InvalidAnswer, otherwise a
CompleteAnswer with the answer's constrained substitution and ambiguity
flag is returned. -/
def root_answer (ops : Ops G L S R U M I V D P A B F) (fuel : Nat)
    (f : Forest U G S R M) (table : TableIndex) (answer_index : AnswerIndex) :
    Option (Forest U G S R M × Except RootSearchFail (CompleteAnswer S R)) :=
  match ensure_root_answer ops fuel (⟨f, []⟩ : SolveState U G S R I M) table answer_index with
  | none => none
  | some (st', Except.error e) => some (st'.forest, Except.error e)
  | some (st', Except.ok ()) =>
    if st'.stack.isEmpty then
      match st'.forest.answer? table answer_index with
      | none => none
      | some answer =>
        if has_delayed_subgoals answer.subst then
          some (st'.forest, Except.error RootSearchFail.InvalidAnswer)
        else
          some (st'.forest, Except.ok
            { subst := canonical_constrained_subst_from_canonical_constrained_answer answer.subst
              ambiguous := answer.ambiguous })
    else none

end Engine

namespace Resolvent

/-!
Model of the answer-application zipper of
src/chalk-solve/src/solve/slg/resolvent.rs (AnswerSubstitutor::zip_tys and
its helpers).  The type language follows chalk_ir TyData as used there:
bound variables carry a de Bruijn index (distance to the binder) and an
index within the binder; application types carry a type name and argument
list.  TyData also has Dyn and Alias variants whose zip arms behave
exactly like Apply (descend when the constructors agree, structural
mismatch aborts); they are represented here by apply with distinct names,
and lifetimes (zip_lifetimes, which mirrors zip_tys) are omitted.
Placeholder and inference-variable payloads are collapsed to numbers. -/

/-- A bound variable: de Bruijn depth and index within its binder. -/
structure BoundVar where
  debruijn : Nat
  index : Nat
deriving DecidableEq

/-- The modelled type language (chalk_ir TyData). -/
inductive Ty where
  | boundVar (bv : BoundVar)
  | inferenceVar (v : Nat)
  | apply (name : Nat) (args : List Ty)
  | placeholder (p : Nat)
  | function (args : List Ty)

/-- From chalk_ir: Some(index) exactly when the variable is bound at the
given binder depth. -/
def BoundVar.index_if_bound_at (bv : BoundVar) (outer : Nat) : Option Nat :=
  if bv.debruijn = outer then some bv.index else none

mutual

/-- From chalk_ir fold/shift: shift the value out across the given number
of binders; a variable bound inside the crossed region is an error.  The
second argument counts the binders entered inside the value itself. -/
def shifted_out_to (outer : Nat) (binders : Nat) : Ty → Option Ty
  | Ty.boundVar bv =>
    if bv.debruijn < binders then some (Ty.boundVar bv)
    else if binders + outer ≤ bv.debruijn then
      some (Ty.boundVar { bv with debruijn := bv.debruijn - outer })
    else none
  | Ty.inferenceVar v => some (Ty.inferenceVar v)
  | Ty.placeholder p => some (Ty.placeholder p)
  | Ty.apply name args =>
    (shifted_out_to_list outer binders args).map (Ty.apply name)
  | Ty.function args =>
    (shifted_out_to_list outer (binders + 1) args).map Ty.function

/-- Helper of shifted_out_to for argument lists. -/
def shifted_out_to_list (outer : Nat) (binders : Nat) : List Ty → Option (List Ty)
  | [] => some []
  | t :: ts =>
    match shifted_out_to outer binders t with
    | none => none
    | some t' =>
      match shifted_out_to_list outer binders ts with
      | none => none
      | some ts' => some (t' :: ts')
end

/-- Residual goals and constraints produced by unification (chalk
UnificationResult). -/
structure UnificationResult where
  goals : List Ty
  constraints : List Nat

/-- From slg.rs (into_ex_clause): push the unification result's goals as
positive subgoals and its constraints into the ex-clause. -/
def into_ex_clause (result : UnificationResult) (ex_clause : ExClause Ty Unit Nat) :
    ExClause Ty Unit Nat :=
  { ex_clause with
    subgoals := ex_clause.subgoals ++ result.goals.map Literal.Positive
    constraints := ex_clause.constraints ++ result.constraints }

/-- The mutable state of the AnswerSubstitutor (resolvent.rs): the
inference table (abstract), the instantiated answer substitution, the
de Bruijn depth of the first binder outside the term being traversed, and
the caller's ex-clause.  The environment is constant and folded into the
abstract operations. -/
structure AnswerSubstitutor (T : Type) where
  table : T
  answer_subst : List Ty
  outer_binder : Nat
  ex_clause : ExClause Ty Unit Nat

/-- The inference-table operations used by the zipper. -/
structure ZipOps (T : Type) where
  normalize_shallow : T → Ty → Option Ty
  unify : T → Ty → Ty → Except NoSolution (T × UnificationResult)

/-- From resolvent.rs (AnswerSubstitutor::assert_matching_vars): both
variables must be bound within the term being matched, at the same depth
and index; violation is a panic (none). -/
def assert_matching_vars {T : Type} (s : AnswerSubstitutor T)
    (answer_var pending_var : BoundVar) :
    Option (Except NoSolution (AnswerSubstitutor T)) :=
  if answer_var.debruijn < s.outer_binder ∧ answer_var.debruijn = pending_var.debruijn ∧
      answer_var.index = pending_var.index then
    some (Except.ok s)
  else none

/-- From resolvent.rs (AnswerSubstitutor::unify_free_answer_var): when the
answer variable is bound exactly at the outer binder it refers into the
answer substitution; the pending sub-term is shifted out (a reference to
an internal binder is a panic) and unified with the substituted parameter.
Returns inner none when the variable is bound inside the answer instead. -/
def unify_free_answer_var {T : Type} (ops : ZipOps T) (s : AnswerSubstitutor T)
    (answer_var : BoundVar) (pending : Ty) :
    Option (Except NoSolution (Option (AnswerSubstitutor T))) :=
  match answer_var.index_if_bound_at s.outer_binder with
  | none => some (Except.ok none)
  | some answer_index =>
    match s.answer_subst.get? answer_index with
    | none => none
    | some answer_param =>
      match shifted_out_to s.outer_binder 0 pending with
      | none => none
      | some pending_shifted =>
        match ops.unify s.table answer_param pending_shifted with
        | Except.error e => some (Except.error e)
        | Except.ok (table', result) =>
          some (Except.ok (some { s with
            table := table'
            ex_clause := into_ex_clause result s.ex_clause }))

mutual

/-- From resolvent.rs (AnswerSubstitutor::zip_tys): normalize the pending
type; try the free-answer-variable route when the answer side is a bound
variable; otherwise the two sides must agree structurally — matching
constructors descend (a function shifts the outer binder in and out),
unresolved inference variables and constructor mismatches are panics
(none).  Recursion through normalization is given fuel. -/
def zip_tys {T : Type} (ops : ZipOps T) :
    Nat → AnswerSubstitutor T → Ty → Ty → Option (Except NoSolution (AnswerSubstitutor T))
  | 0, _, _, _ => none
  | fuel + 1, s, answer, pending =>
    match ops.normalize_shallow s.table pending with
    | some pending' => zip_tys ops fuel s answer pending'
    | none =>
      match answer, pending with
      | Ty.boundVar answer_depth, pending =>
        match unify_free_answer_var ops s answer_depth pending with
        | none => none
        | some (Except.error e) => some (Except.error e)
        | some (Except.ok (some s')) => some (Except.ok s')
        | some (Except.ok none) =>
          match pending with
          | Ty.boundVar pending_depth =>
            assert_matching_vars s answer_depth pending_depth
          | _ => none
      | Ty.apply answer_name answer_args, Ty.apply pending_name pending_args =>
        if answer_name = pending_name then
          zip_ty_list ops fuel s answer_args pending_args
        else some (Except.error NoSolution.mk)
      | Ty.placeholder answer_p, Ty.placeholder pending_p =>
        if answer_p = pending_p then some (Except.ok s)
        else some (Except.error NoSolution.mk)
      | Ty.function answer_args, Ty.function pending_args =>
        match zip_ty_list ops fuel
            { s with outer_binder := s.outer_binder + 1 } answer_args pending_args with
        | none => none
        | some (Except.error e) => some (Except.error e)
        | some (Except.ok s₂) =>
          some (Except.ok { s₂ with outer_binder := s₂.outer_binder - 1 })
      | Ty.inferenceVar _, _ => none
      | _, Ty.inferenceVar _ => none
      | _, _ => none

/-- Pairwise zip of argument lists (chalk Zip for substitutions); a length
mismatch is NoSolution.  Fuel is consumed on every step (a model
artifact; the source recursion is structural on the terms). -/
def zip_ty_list {T : Type} (ops : ZipOps T) :
    Nat → AnswerSubstitutor T → List Ty → List Ty →
    Option (Except NoSolution (AnswerSubstitutor T))
  | _, s, [], [] => some (Except.ok s)
  | 0, _, _ :: _, _ :: _ => none
  | fuel + 1, s, a :: answer_rest, p :: pending_rest =>
    match zip_tys ops fuel s a p with
    | none => none
    | some (Except.error e) => some (Except.error e)
    | some (Except.ok s') => zip_ty_list ops fuel s' answer_rest pending_rest
  | _, _, _, _ => some (Except.error NoSolution.mk)
end

mutual

/-- Fuel sufficient for zip_tys to traverse the answer term (a model
artifact; see zip_ty_list). -/
def tyNeed : Ty → Nat
  | Ty.boundVar _ => 1
  | Ty.inferenceVar _ => 1
  | Ty.placeholder _ => 1
  | Ty.apply _ args => 1 + listNeed args
  | Ty.function args => 1 + listNeed args

/-- Fuel sufficient for zip_ty_list to traverse an argument list. -/
def listNeed : List Ty → Nat
  | [] => 0
  | a :: rest => 1 + max (tyNeed a) (listNeed rest)

end

/-- The upstream invariant under which the structural-mismatch abort of
zip_tys is unreachable: the answer term and the pending term agree at
every non-variable position; an answer variable bound at the outer binder
refers into the answer substitution (in range) and the pending sub-term
can be shifted out of the crossed binders; an answer variable bound within
the term is matched by the identical pending variable. -/
inductive Compat (substLen : Nat) : Nat → Ty → Ty → Prop where
  | free (outer : Nat) (bv : BoundVar) (pending : Ty) :
      bv.debruijn = outer → bv.index < substLen →
      (shifted_out_to outer 0 pending).isSome = true →
      Compat substLen outer (Ty.boundVar bv) pending
  | bound (outer : Nat) (bv : BoundVar) :
      bv.debruijn < outer →
      Compat substLen outer (Ty.boundVar bv) (Ty.boundVar bv)
  | apply (outer : Nat) (name : Nat) (args pending_args : List Ty) :
      args.length = pending_args.length →
      (∀ pair ∈ args.zip pending_args, Compat substLen outer pair.1 pair.2) →
      Compat substLen outer (Ty.apply name args) (Ty.apply name pending_args)
  | placeholder (outer : Nat) (p : Nat) :
      Compat substLen outer (Ty.placeholder p) (Ty.placeholder p)
  | fn (outer : Nat) (args pending_args : List Ty) :
      args.length = pending_args.length →
      (∀ pair ∈ args.zip pending_args, Compat substLen (outer + 1) pair.1 pair.2) →
      Compat substLen outer (Ty.function args) (Ty.function pending_args)

/-- Constructor tag of a type, for stating structural mismatch. -/
def Ty.head : Ty → Nat
  | Ty.boundVar _ => 0
  | Ty.inferenceVar _ => 1
  | Ty.apply _ _ => 2
  | Ty.placeholder _ => 3
  | Ty.function _ => 4

end Resolvent

/-! Concrete instantiation used by the witnesses: every abstract type is
Nat or Unit and the context operations are simple total functions. -/

/-- The concrete Ops type used by witnesses. -/
abbrev WOps := Ops Nat Nat Nat Nat Nat Unit Unit Unit Unit Unit Unit Unit Unit

/-- A trivial context-operations record on concrete types. -/
def trivialOps : WOps :=
  { canonicalize_ex_clause := fun _ ex => { binders := 0, value := ex }
    instantiate_ex_clause := fun _ c => ((), c.value)
    instantiate_ucanonical_goal := fun u => ((), u, (), u)
    instantiate_answer_subst := fun _ c =>
      ((), c.value.subst, c.value.constraints, c.value.delayed_subgoals)
    num_universes := fun _ => 0
    is_coinductive := fun _ => false
    program_clauses := fun _ _ _ => Except.ok []
    resolvent_clause := fun _ _ _ _ _ => Except.error NoSolution.mk
    truncate_goal := fun _ _ => none
    truncate_answer := fun _ _ => none
    fully_canonicalize_goal := fun _ g => (g, ())
    canonicalize_goal := fun _ g => { free_vars := [], value := g }
    invert_placeholders := fun _ g => g
    unify_parameters_into_ex_clause := fun i _ _ _ ex => Except.ok (i, ex)
    instantiate_binders_universally := fun i _ => (i, 0)
    instantiate_binders_existentially := fun i _ => (i, 0)
    add_clauses := fun v _ => v
    into_hh_goal := fun _ => HhGoal.CannotProve
    into_goal := fun _ => 0
    goal_in_environment := fun _ l => l
    goal_from_goal_in_environment := fun g => g
    map_goal_from_canonical := fun _ u => u
    map_subst_from_canonical := fun _ c => c
    apply_answer_subst := fun i ex _ _ _ => Except.ok (i, ex)
    is_trivial_substitution := fun _ c => c.value.subst == 0
    canonicalize_answer_subst := fun _ s r g => { binders := 0, value := ⟨s, r, g⟩ }
    next_subgoal_index := fun ex => ex.subgoals.length - 1 }

/-- An empty ex-clause over the concrete types, with a given
substitution. -/
def wExClause (subst : Nat) : ExClause Nat Nat Nat :=
  { subst := subst, ambiguous := false, constraints := [], subgoals := [],
    delayed_subgoals := [], answer_time := 0, floundered_subgoals := [] }

/-- A canonical answer substitution over the concrete types. -/
def wAnswerSubst (subst : Nat) (delayed : List Nat) : Canonical (AnswerSubst Nat Nat Nat) :=
  { binders := 0, value := { subst := subst, constraints := [], delayed_subgoals := delayed } }

/-- The forest used by the C1 and C10 witnesses: one non-floundered table
whose answer 0 is cached and carries a delayed subgoal. -/
def w1Forest : Forest Nat Nat Nat Nat Unit :=
  ⟨[⟨0, false, false, [], [⟨wAnswerSubst 0 [5], false⟩]⟩], 0⟩

/-- Concrete strand type of the witnesses. -/
abbrev WStrand := Strand Nat Nat Nat Unit Unit

/-- Concrete stack frame of the witnesses. -/
abbrev WFrame := StackFrame Nat Nat Nat Unit Unit

/-- A caller strand for the C3 witness, selecting subgoal 0 of table 0
with the given literal as its only subgoal. -/
def c3Strand (lit : Literal Nat) : WStrand :=
  { infer := ()
    ex_clause := { wExClause 0 with subgoals := [lit] }
    selected_subgoal := some ⟨0, 0, 0, ()⟩
    last_pursued_time := 0 }

/-- The forest for the C3 witness: table 0 with no strands, table 1. -/
def c3Forest : Forest Nat Nat Nat Nat Unit :=
  ⟨[⟨0, false, false, [], []⟩, ⟨1, false, false, [], []⟩], 1⟩

/-- The top frame of the C3 witness stack, solving table 0. -/
def c3Top : WFrame := ⟨0, 1, Minimums.MAX, none⟩

/-- The caller frame of the C3 witness stack. -/
def c3Caller (lit : Literal Nat) : WFrame :=
  ⟨1, 0, Minimums.MAX, some (c3Strand lit)⟩

/-- A queued canonical strand for the C2 witness whose selected subgoal
points at table 1. -/
def c2Strand : CanonicalStrand Nat Nat Nat Unit :=
  { canonical_ex_clause := { binders := 0, value := wExClause 0 }
    selected_subgoal := some ⟨0, 1, 0, ()⟩
    last_pursued_time := 5 }

/-- The forest for the C2 witness: table 0 holds one cycle-bound strand,
table 1 is empty. -/
def c2Forest : Forest Nat Nat Nat Nat Unit :=
  ⟨[⟨0, false, false, [c2Strand], []⟩, ⟨1, false, false, [], []⟩], 5⟩

/-- The top frame of the C2 witness with the given cyclic minimums. -/
def c2Top (m : Minimums) : WFrame := ⟨0, 5, m, none⟩

/-- Selected subgoal of the C4 witness strand: subgoal 0, table 1, answer
index 0. -/
def c4Sel : SelectedSubgoal Unit := ⟨0, 1, 0, ()⟩

/-- The C4 witness strand: one positive subgoal, selected. -/
def c4Strand : WStrand :=
  ⟨(), { wExClause 0 with subgoals := [Literal.Positive 3] }, some c4Sel, 0⟩

/-- Table 1 of the C4 witness, holding the answer being merged. -/
def c4Table1 : Table Nat Nat Nat Nat Unit :=
  ⟨1, false, false, [], [⟨wAnswerSubst 0 [], false⟩]⟩

/-- The C4 witness forest: the current table 0 (empty queue) and the
answer table 1. -/
def c4Forest : Forest Nat Nat Nat Nat Unit := ⟨[⟨0, false, false, [], []⟩, c4Table1], 0⟩

/-- The C4 witness top frame, solving table 0. -/
def c4Top : WFrame := ⟨0, 1, Minimums.MAX, none⟩

/-- The result of the C4 witness merge: the incremented clone is enqueued
on table 0 and the answer is applied to the strand. -/
def c4Res : SolveState Nat Nat Nat Nat Unit Unit × Except RootSearchFail WStrand :=
  (⟨⟨[⟨0, false, false,
      [canonicalize_strand trivialOps
        { c4Strand with selected_subgoal := some { c4Sel with answer_index := c4Sel.answer_index + 1 } }],
      []⟩, c4Table1], 0⟩, [c4Top]⟩,
   Except.ok ⟨(), { wExClause 0 with answer_time := 1 }, none, 0⟩)

/-- A queued strand for the C5 witness table (to exhibit clearing). -/
def c5Queued : CanonicalStrand Nat Nat Nat Unit :=
  ⟨⟨0, wExClause 9⟩, none, 0⟩

/-- The C5 witness table with one queued strand and no answers. -/
def c5Table : Table Nat Nat Nat Nat Unit := ⟨0, false, false, [c5Queued], []⟩

/-- The C5 witness forest. -/
def c5Forest : Forest Nat Nat Nat Nat Unit := ⟨[c5Table], 0⟩

/-- The C5 witness top frame. -/
def c5Top : WFrame := ⟨0, 1, Minimums.MAX, none⟩

/-- A C5 witness strand with no subgoals and the given substitution. -/
def c5Strand (subst : Nat) : WStrand := ⟨(), wExClause subst, none, 0⟩

/-- The C6 strand: no subgoals, no selection, and one floundered subgoal
whose floundered time (5) is not before the answer time (3). -/
def c6Strand : WStrand :=
  ⟨(), { wExClause 0 with
    answer_time := 3
    floundered_subgoals := [⟨Literal.Positive 0, 5⟩] }, none, 0⟩

/-- The forest produced by looking up the table for the negative literal 7
in the empty forest under the trivial operations: one fresh table for goal
7 seeded with the single ambiguous simplification strand. -/
def c7Forest : Forest Nat Nat Nat Nat Unit :=
  ⟨[⟨7, false, false, [⟨⟨0, { wExClause 7 with ambiguous := true }⟩, none, 0⟩], []⟩], 0⟩

/-- The C8 table: the cached answer at index 0 has substitution 1 (failing
the test below) while the queued strand's working substitution is 0
(passing it). -/
def c8Table : Table Nat Nat Nat Nat Unit :=
  ⟨0, false, false, [⟨⟨0, wExClause 0⟩, none, 0⟩], [⟨wAnswerSubst 1 [], false⟩]⟩

/-- The C8 forest holding only the C8 table. -/
def c8Forest : Forest Nat Nat Nat Nat Unit := ⟨[c8Table], 0⟩

/-- The C9 forest: a single coinductive table. -/
def c9CoForest : Forest Nat Nat Nat Nat Unit := ⟨[⟨0, true, false, [], []⟩], 0⟩

/-- Zip operations for the C9 witness: nothing normalizes and unification
always succeeds without residual goals or constraints. -/
def c9ZipOps : Resolvent.ZipOps Unit :=
  ⟨fun _ _ => none, fun t _ _ => Except.ok (t, ⟨[], []⟩)⟩

/-- An empty ex-clause over the resolvent types. -/
def c9Ex : ExClause Resolvent.Ty Unit Nat :=
  { subst := (), ambiguous := false, constraints := [], subgoals := [],
    delayed_subgoals := [], answer_time := 0, floundered_subgoals := [] }

/-- The answer substitutor of the C9 witness: a one-parameter answer
substitution at outer binder 0. -/
def c9Subst : Resolvent.AnswerSubstitutor Unit :=
  ⟨(), [Resolvent.Ty.placeholder 3], 0, c9Ex⟩

/-! ### Theorems -/

set_option linter.unusedSectionVars false

section Theorems

variable {G L S R U M I V D P A B F : Type}
variable [DecidableEq G] [DecidableEq L] [DecidableEq S] [DecidableEq R] [DecidableEq U]

/-- C10: for every forest state, a call to root_answer on a table that is
not floundered and whose requested answer is already cached leaves the
forest completely unchanged: ensure_root_answer returns success on the
unchanged state (the clock is not advanced and no table, strand or answer
is touched), and root_answer returns the original forest. -/
theorem C10_root_answer_cached_frame
    (ops : Ops G L S R U M I V D P A B F) (fuel : Nat) (f : Forest U G S R M)
    (table : TableIndex) (answer_index : AnswerIndex)
    (tbl : Table U G S R M) (ans : Answer G S R)
    (htbl : f.table? table = some tbl)
    (hfl : tbl.floundered = false)
    (hans : tbl.answer answer_index = some ans) :
    ensure_root_answer ops fuel (⟨f, []⟩ : SolveState U G S R I M) table answer_index =
        some (⟨f, []⟩, Except.ok ()) ∧
    ∃ r, root_answer ops fuel f table answer_index = some (f, r) := by
  have hens : ensure_root_answer ops fuel (⟨f, []⟩ : SolveState U G S R I M) table answer_index =
      some (⟨f, []⟩, Except.ok ()) := by
    unfold ensure_root_answer
    simp only [htbl, hfl, hans]
    rfl
  refine ⟨hens, ?_⟩
  have hansf : f.answer? table answer_index = some ans := by
    unfold Forest.answer?
    rw [htbl]
    exact hans
  by_cases hd : has_delayed_subgoals ans.subst
  · refine ⟨Except.error RootSearchFail.InvalidAnswer, ?_⟩
    unfold root_answer
    rw [hens]
    simp [hansf, hd]
  · refine ⟨Except.ok
      { subst := canonical_constrained_subst_from_canonical_constrained_answer ans.subst
        ambiguous := ans.ambiguous }, ?_⟩
    unfold root_answer
    rw [hens]
    simp [hansf, hd]

/-- C10 witness: the concrete forest with a cached answer is returned
unchanged. -/
theorem C10_witness :
    ensure_root_answer trivialOps 1 (⟨w1Forest, []⟩ : SolveState Nat Nat Nat Nat Unit Unit) 0 0 =
        some (⟨w1Forest, []⟩, Except.ok ()) ∧
    ∃ r, root_answer trivialOps 1 w1Forest 0 0 = some (w1Forest, r) :=
  C10_root_answer_cached_frame trivialOps 1 w1Forest 0 0 _ _ rfl rfl rfl

/-- C1: whenever ensure_root_answer succeeds, root_answer returns
InvalidAnswer exactly when the answer stored at the requested index
carries delayed subgoals; otherwise it returns a CompleteAnswer whose
substitution and ambiguity flag are those of the stored answer. -/
theorem C1_root_answer_invalid_iff
    (ops : Ops G L S R U M I V D P A B F) (fuel : Nat) (f : Forest U G S R M)
    (table : TableIndex) (answer_index : AnswerIndex)
    (st' : SolveState U G S R I M) (ans : Answer G S R)
    (hens : ensure_root_answer ops fuel (⟨f, []⟩ : SolveState U G S R I M) table answer_index =
      some (st', Except.ok ()))
    (hstk : st'.stack = [])
    (hans : st'.forest.answer? table answer_index = some ans) :
    (root_answer ops fuel f table answer_index =
        some (st'.forest, Except.error RootSearchFail.InvalidAnswer) ↔
      has_delayed_subgoals ans.subst = true) ∧
    (has_delayed_subgoals ans.subst = false →
      root_answer ops fuel f table answer_index =
        some (st'.forest, Except.ok
          { subst := canonical_constrained_subst_from_canonical_constrained_answer ans.subst
            ambiguous := ans.ambiguous })) := by
  have hroot : root_answer ops fuel f table answer_index =
      (if has_delayed_subgoals ans.subst then
        some (st'.forest, Except.error RootSearchFail.InvalidAnswer)
      else
        some (st'.forest, Except.ok
          { subst := canonical_constrained_subst_from_canonical_constrained_answer ans.subst
            ambiguous := ans.ambiguous })) := by
    unfold root_answer
    rw [hens]
    simp only [hstk, List.isEmpty_nil, if_true, hans]
  constructor
  · constructor
    · intro h
      by_contra hd
      simp only [Bool.not_eq_true] at hd
      rw [hroot, hd] at h
      simp at h
    · intro hd
      rw [hroot, hd]
      simp
  · intro hd
    rw [hroot, hd]
    simp

/-- Unwinding always empties the stack. -/
theorem unwind_stack_stack_eq_nil (ops : Ops G L S R U M I V D P A B F)
    (st st' : SolveState U G S R I M) (h : unwind_stack ops st = some st') :
    st'.stack = [] := by
  unfold unwind_stack at h
  cases hstk : st.stack with
  | nil =>
    rw [hstk] at h
    cases h
    rfl
  | cons top rest =>
    rw [hstk] at h
    have h' : (unwind_frames ops st.forest rest).map
        (fun f => (⟨f, []⟩ : SolveState U G S R I M)) = some st' := h
    cases hF : unwind_frames ops st.forest rest with
    | none => rw [hF] at h'; cases h'
    | some f' =>
      rw [hF] at h'
      cases h'
      rfl

/-- Setting one table leaves the others unchanged. -/
theorem table?_setTable_ne (f : Forest U G S R M) {i j : TableIndex}
    (h : i ≠ j) (t : Table U G S R M) : (f.setTable i t).table? j = f.table? j := by
  simp only [Forest.setTable, Forest.table?]
  rw [List.get?_set_ne _ _ h]

/-- Setting a table that exists stores the new value. -/
theorem table?_setTable_eq (f : Forest U G S R M) {i : TableIndex}
    {tbl : Table U G S R M} (h : f.table? i = some tbl) (t : Table U G S R M) :
    (f.setTable i t).table? i = some t := by
  have hlt : i < f.tables.length := by
    by_contra hge
    unfold Forest.table? at h
    rw [List.get?_eq_none.mpr (Nat.le_of_not_lt hge)] at h
    cases h
  simp only [Forest.setTable, Forest.table?]
  rw [List.get?_set_eq_of_lt _ hlt]

/-- Modifying one table leaves the others unchanged. -/
theorem table?_modifyTable_ne (f : Forest U G S R M) {i j : TableIndex}
    (h : i ≠ j) (upd : Table U G S R M → Table U G S R M) :
    (f.modifyTable i upd).table? j = f.table? j := by
  unfold Forest.modifyTable
  cases htab : f.table? i with
  | none => rfl
  | some t => exact table?_setTable_ne f h (upd t)

/-- Modifying an existing table applies the update. -/
theorem table?_modifyTable_eq (f : Forest U G S R M) {i : TableIndex}
    {tbl : Table U G S R M} (h : f.table? i = some tbl)
    (upd : Table U G S R M → Table U G S R M) :
    (f.modifyTable i upd).table? i = some (upd tbl) := by
  unfold Forest.modifyTable
  rw [h]
  exact table?_setTable_eq f h (upd tbl)

/-- Unwinding frames whose tables all differ from a given table does not
touch that table. -/
theorem unwind_frames_table? (ops : Ops G L S R U M I V D P A B F)
    (frames : Stack G S R I M) :
    ∀ (f f' : Forest U G S R M) (t : TableIndex),
      (∀ fr ∈ frames, fr.table ≠ t) →
      unwind_frames ops f frames = some f' →
      f'.table? t = f.table? t := by
  induction frames with
  | nil =>
    intro f f' t _ h
    have h' : some f = some f' := h
    cases h'
    rfl
  | cons caller rest ih =>
    intro f f' t hdisj h
    unfold unwind_frames at h
    cases hact : caller.active_strand with
    | none => rw [hact] at h; cases h
    | some strand =>
      rw [hact] at h
      have h' : unwind_frames ops
          (f.modifyTable caller.table
            (fun tb => tb.enqueue_strand (canonicalize_strand ops strand))) rest = some f' := h
      have step := ih _ f' t (fun fr hm => hdisj fr (List.mem_cons_of_mem _ hm)) h'
      rw [step, table?_modifyTable_ne _ (hdisj caller (List.mem_cons_self _ _)) _]

/-- Clearing strands after a cycle only empties queues: a table whose
queue is already empty keeps an empty queue. -/
theorem clear_strands_preserves_cleared (fuel : Nat) :
    ∀ (strands : List (CanonicalStrand G S R M)) (f f' : Forest U G S R M)
      (t : TableIndex) (tbl : Table U G S R M),
      clear_strands_after_cycle fuel f strands = some f' →
      f.table? t = some tbl → tbl.strands = [] →
      ∃ tbl', f'.table? t = some tbl' ∧ tbl'.strands = [] := by
  induction fuel with
  | zero =>
    intro strands f f' t tbl h ht hq
    cases strands with
    | nil =>
      have h' : some f = some f' := h
      cases h'
      exact ⟨tbl, ht, hq⟩
    | cons s rest =>
      have h' : (none : Option (Forest U G S R M)) = some f' := h
      cases h'
  | succ fuel ih =>
    intro strands f f' t tbl h ht hq
    cases strands with
    | nil =>
      have h' : some f = some f' := h
      cases h'
      exact ⟨tbl, ht, hq⟩
    | cons s rest =>
      unfold clear_strands_after_cycle at h
      split at h
      · cases h
      · next sel hsel =>
        split at h
        · cases h
        · next subtbl hsub =>
          simp only [Table.take_strands] at h
          split at h
          · cases h
          · next f₂ hclear₁ =>
            by_cases heq : sel.subgoal_table = t
            · subst heq
              have ht₁ : (f.setTable sel.subgoal_table { subtbl with strands := [] }).table?
                  sel.subgoal_table = some { subtbl with strands := [] } :=
                table?_setTable_eq f hsub _
              obtain ⟨tbl₂, hmid, hqmid⟩ := ih _ _ _ _ _ hclear₁ ht₁ rfl
              exact ih _ _ _ _ _ h hmid hqmid
            · have ht₁ : (f.setTable sel.subgoal_table { subtbl with strands := [] }).table? t =
                  some tbl := by
                rw [table?_setTable_ne f heq _]
                exact ht
              obtain ⟨tbl₂, hmid, hqmid⟩ := ih _ _ _ _ _ hclear₁ ht₁ hq
              exact ih _ _ _ _ _ h hmid hqmid

/-- C2: when the driver finds no eligible strand but the top table still
has strands, and the frame's cyclic minimums are at or above its clock,
the engine either unwinds and returns NegativeCycle (negative minimum
strictly below MAX) or clears the cycle's strands and returns
QuantumExceeded (negative minimum equal to MAX); in both cases the stack
ends empty, and in the second case the top table's queue ends empty. -/
theorem C2_on_no_strands_left_cycle_locked
    (ops : Ops G L S R U M I V D P A B F) (fuel : Nat)
    (st : SolveState U G S R I M) (top : StackFrame G S R I M)
    (rest : Stack G S R I M) (tbl : Table U G S R M)
    (hstack : st.stack = top :: rest)
    (htbl : st.forest.table? top.table = some tbl)
    (hne : tbl.strands.length ≠ 0)
    (hpos : top.cyclic_minimums.positive ≥ top.clock)
    (hneg : top.cyclic_minimums.negative ≥ top.clock) :
    (top.cyclic_minimums.negative < TimeStamp.MAX →
      ∀ st', unwind_stack ops st = some st' →
        on_no_strands_left ops fuel st = some (st', Except.error RootSearchFail.NegativeCycle) ∧
        st'.stack = []) ∧
    (top.cyclic_minimums.negative = TimeStamp.MAX →
      ∀ f₂ st',
        clear_strands_after_cycle fuel (st.forest.setTable top.table (tbl.take_strands).2)
          (tbl.take_strands).1 = some f₂ →
        unwind_stack ops ⟨f₂, st.stack⟩ = some st' →
        (∀ fr ∈ rest, fr.table ≠ top.table) →
        on_no_strands_left ops fuel st = some (st', Except.error RootSearchFail.QuantumExceeded) ∧
        st'.stack = [] ∧
        ∃ tbl', st'.forest.table? top.table = some tbl' ∧ tbl'.strands = []) := by
  constructor
  · intro hlt st' hunw
    refine ⟨?_, unwind_stack_stack_eq_nil ops st st' hunw⟩
    unfold on_no_strands_left
    simp only [hstack, htbl, if_neg hne, if_pos (And.intro hpos hneg), if_pos hlt, hunw]
  · intro hmax f₂ st' hclear hunw hdisj
    have hnlt : ¬ top.cyclic_minimums.negative < TimeStamp.MAX := by
      rw [hmax]
      exact Nat.lt_irrefl _
    refine ⟨?_, unwind_stack_stack_eq_nil ops _ st' hunw, ?_⟩
    · unfold on_no_strands_left
      simp only [Table.take_strands] at hclear
      simp only [hstack] at hunw
      simp only [hstack, htbl, if_neg hne, if_pos (And.intro hpos hneg), if_neg hnlt,
        Table.take_strands, hclear, hunw]
    · have hclear' : clear_strands_after_cycle fuel
          (st.forest.setTable top.table { tbl with strands := [] }) tbl.strands = some f₂ := by
        simpa [Table.take_strands] using hclear
      have hcleared : ∃ tbl', f₂.table? top.table = some tbl' ∧ tbl'.strands = [] :=
        clear_strands_preserves_cleared fuel tbl.strands
          (st.forest.setTable top.table { tbl with strands := [] }) f₂ top.table
          { tbl with strands := [] } hclear' (table?_setTable_eq st.forest htbl _) rfl
      obtain ⟨tbl', h₂, hq₂⟩ := hcleared
      have hforest : st'.forest.table? top.table = f₂.table? top.table := by
        unfold unwind_stack at hunw
        simp only [hstack] at hunw
        have hunw' : (unwind_frames ops f₂ rest).map
            (fun f => (⟨f, []⟩ : SolveState U G S R I M)) = some st' := hunw
        cases hF : unwind_frames ops f₂ rest with
        | none => rw [hF] at hunw'; cases hunw'
        | some ff =>
          rw [hF] at hunw'
          cases hunw'
          exact unwind_frames_table? ops rest f₂ ff top.table hdisj hF
      exact ⟨tbl', by rw [hforest]; exact h₂, hq₂⟩

/-- C2 witness: the concrete cycle-locked states produce NegativeCycle
(negative minimum 6 below MAX) and QuantumExceeded with a cleared queue
(negative minimum equal to MAX). -/
theorem C2_witness :
    (on_no_strands_left trivialOps 1
        (⟨c2Forest, [c2Top ⟨5, 6⟩]⟩ : SolveState Nat Nat Nat Nat Unit Unit) =
      some (⟨c2Forest, []⟩, Except.error RootSearchFail.NegativeCycle)) ∧
    (on_no_strands_left trivialOps 1
        (⟨c2Forest, [c2Top Minimums.MAX]⟩ : SolveState Nat Nat Nat Nat Unit Unit) =
      some (⟨⟨[⟨0, false, false, [], []⟩, ⟨1, false, false, [], []⟩], 5⟩, []⟩,
        Except.error RootSearchFail.QuantumExceeded)) := by
  constructor
  · exact ((C2_on_no_strands_left_cycle_locked trivialOps 1
      (⟨c2Forest, [c2Top ⟨5, 6⟩]⟩ : SolveState Nat Nat Nat Nat Unit Unit)
      (c2Top ⟨5, 6⟩) [] ⟨0, false, false, [c2Strand], []⟩ rfl rfl
      (by decide) (by decide) (by decide)).1 (by decide) ⟨c2Forest, []⟩ rfl).1
  · exact ((C2_on_no_strands_left_cycle_locked trivialOps 1
      (⟨c2Forest, [c2Top Minimums.MAX]⟩ : SolveState Nat Nat Nat Nat Unit Unit)
      (c2Top Minimums.MAX) [] ⟨0, false, false, [c2Strand], []⟩ rfl rfl
      (by decide) (by decide) (by decide)).2 rfl
      ⟨[⟨0, false, false, [], []⟩, ⟨1, false, false, [], []⟩], 5⟩
      ⟨⟨[⟨0, false, false, [], []⟩, ⟨1, false, false, [], []⟩], 5⟩, []⟩
      rfl rfl (by simp)).1

/-- C3: when the top table has zero remaining strands and is not the
root, a negative caller literal is removed from the caller's ex-clause
with the caller strand kept active (negation proven by failure), while a
positive caller literal discards the caller strand and unwinds with
QuantumExceeded. -/
theorem C3_on_no_strands_left_zero_strands
    (ops : Ops G L S R U M I V D P A B F) (fuel : Nat)
    (st : SolveState U G S R I M) (top caller : StackFrame G S R I M)
    (rest' : Stack G S R I M) (tbl : Table U G S R M)
    (caller_strand : Strand G S R I M) (sel : SelectedSubgoal M) (lit : Literal G)
    (hstack : st.stack = top :: caller :: rest')
    (htbl : st.forest.table? top.table = some tbl)
    (hzero : tbl.strands = [])
    (hactive : caller.active_strand = some caller_strand)
    (hsel : caller_strand.selected_subgoal = some sel)
    (hlit : caller_strand.ex_clause.subgoals.get? sel.subgoal_index = some lit) :
    (∀ g, lit = Literal.Negative g →
      on_no_strands_left ops fuel st = some
        (⟨st.forest,
          (⟨caller.table, caller.clock, caller.cyclic_minimums,
            some ⟨caller_strand.infer,
              { caller_strand.ex_clause with
                subgoals := caller_strand.ex_clause.subgoals.eraseIdx sel.subgoal_index },
              none, caller_strand.last_pursued_time⟩⟩ : StackFrame G S R I M)
            :: rest'⟩,
          Except.ok ())) ∧
    (∀ g st', lit = Literal.Positive g →
      unwind_stack ops ⟨st.forest, { caller with active_strand := none } :: rest'⟩ = some st' →
      on_no_strands_left ops fuel st = some (st', Except.error RootSearchFail.QuantumExceeded) ∧
      st'.stack = []) := by
  have hlen : tbl.strands.length = 0 := by rw [hzero]; rfl
  constructor
  · intro g hg
    subst hg
    unfold on_no_strands_left
    simp only [hstack, htbl, if_pos hlen, hactive, hsel, hlit]
  · intro g st' hg hunw
    subst hg
    refine ⟨?_, unwind_stack_stack_eq_nil ops _ st' hunw⟩
    unfold on_no_strands_left
    simp only [hstack, htbl, if_pos hlen, hactive, hsel, hlit, hunw]

/-- C3 witness: with the concrete two-frame stack and an empty table 0,
a negative caller literal is removed and the strand stays active, while a
positive caller literal yields QuantumExceeded with an empty stack. -/
theorem C3_witness :
    (on_no_strands_left trivialOps 1
        (⟨c3Forest, [c3Top, c3Caller (Literal.Negative 7)]⟩ :
          SolveState Nat Nat Nat Nat Unit Unit) =
      some (⟨c3Forest,
        [(⟨1, 0, Minimums.MAX,
          some ⟨(), { wExClause 0 with subgoals := [] }, none, 0⟩⟩ : WFrame)]⟩,
        Except.ok ())) ∧
    (on_no_strands_left trivialOps 1
        (⟨c3Forest, [c3Top, c3Caller (Literal.Positive 7)]⟩ :
          SolveState Nat Nat Nat Nat Unit Unit) =
      some (⟨c3Forest, []⟩, Except.error RootSearchFail.QuantumExceeded)) := by
  constructor
  · exact (C3_on_no_strands_left_zero_strands trivialOps 1
      (⟨c3Forest, [c3Top, c3Caller (Literal.Negative 7)]⟩ :
        SolveState Nat Nat Nat Nat Unit Unit)
      c3Top (c3Caller (Literal.Negative 7)) [] ⟨0, false, false, [], []⟩
      (c3Strand (Literal.Negative 7))
      { subgoal_index := 0, subgoal_table := 0, answer_index := 0, universe_map := () }
      (Literal.Negative 7) rfl rfl rfl rfl rfl rfl).1 7 rfl
  · exact ((C3_on_no_strands_left_zero_strands trivialOps 1
      (⟨c3Forest, [c3Top, c3Caller (Literal.Positive 7)]⟩ :
        SolveState Nat Nat Nat Nat Unit Unit)
      c3Top (c3Caller (Literal.Positive 7)) [] ⟨0, false, false, [], []⟩
      (c3Strand (Literal.Positive 7))
      { subgoal_index := 0, subgoal_table := 0, answer_index := 0, universe_map := () }
      (Literal.Positive 7) rfl rfl rfl rfl rfl rfl).2 7 ⟨c3Forest, []⟩ rfl rfl).1

/-- Modifying a table without touching its answer list preserves every
answer lookup. -/
theorem answer?_modifyTable (f : Forest U G S R M) (i : TableIndex)
    (upd : Table U G S R M → Table U G S R M)
    (hupd : ∀ t, (upd t).answers = t.answers) (j : TableIndex) (k : AnswerIndex) :
    (f.modifyTable i upd).answer? j k = f.answer? j k := by
  unfold Forest.answer?
  by_cases heq : i = j
  · subst heq
    cases htab : f.table? i with
    | none => simp [Forest.modifyTable, htab]
    | some t =>
      rw [table?_modifyTable_eq f htab upd]
      simp [Option.bind, Table.answer, hupd t]
  · rw [table?_modifyTable_ne f heq upd]

/-- C4: for a strand whose selected subgoal is a positive literal with an
available answer, merge_answer_into_strand enqueues on the current table a
canonicalized clone of the strand whose answer index is incremented by
one, before the answer is applied: whatever the (non-panicking) outcome of
the merge, the current table's queue has gained exactly that clone at its
tail. -/
theorem C4_merge_enqueues_next_answer_strand
    (ops : Ops G L S R U M I V D P A B F) (st : SolveState U G S R I M)
    (top : StackFrame G S R I M) (rest : Stack G S R I M)
    (strand : Strand G S R I M) (sel : SelectedSubgoal M) (g : G)
    (ans : Answer G S R) (tbl : Table U G S R M)
    (hstack : st.stack = top :: rest)
    (hsel : strand.selected_subgoal = some sel)
    (hlit : strand.ex_clause.subgoals.get? sel.subgoal_index = some (Literal.Positive g))
    (hans : st.forest.answer? sel.subgoal_table sel.answer_index = some ans)
    (htbl : st.forest.table? top.table = some tbl)
    (hdisj : ∀ fr ∈ rest, fr.table ≠ top.table) :
    ∀ res, merge_answer_into_strand ops st strand = some res →
      ∃ tbl', res.1.forest.table? top.table = some tbl' ∧
        tbl'.strands = tbl.strands ++
          [canonicalize_strand ops { strand with selected_subgoal := some { sel with answer_index := sel.answer_index + 1 } }] := by
  intro res hres
  unfold merge_answer_into_strand at hres
  simp only [hsel, hlit, hstack] at hres
  set cl := canonicalize_strand ops { strand with selected_subgoal := some { sel with answer_index := sel.answer_index + 1 } } with hcl
  set f₁ := st.forest.modifyTable top.table (fun t => t.enqueue_strand cl) with hf₁
  obtain ⟨subtbl, hsub⟩ : ∃ t, st.forest.table? sel.subgoal_table = some t := by
    unfold Forest.answer? at hans
    cases h : st.forest.table? sel.subgoal_table with
    | none => rw [h] at hans; cases hans
    | some t => exact ⟨t, rfl⟩
  have hans' : f₁.answer? sel.subgoal_table sel.answer_index = some ans := by
    rw [hf₁, answer?_modifyTable st.forest top.table
      (fun t => t.enqueue_strand cl) (fun _ => rfl)]
    exact hans
  obtain ⟨subtbl', hsub'⟩ : ∃ t, f₁.table? sel.subgoal_table = some t := by
    rw [hf₁]
    by_cases heq : top.table = sel.subgoal_table
    · rw [← heq]
      exact ⟨_, table?_modifyTable_eq st.forest htbl _⟩
    · rw [table?_modifyTable_ne st.forest heq]
      exact ⟨subtbl, hsub⟩
  rw [hsub'] at hres
  simp only [hans'] at hres
  have hgoal : f₁.table? top.table = some { tbl with strands := tbl.strands ++ [cl] } := by
    rw [hf₁, table?_modifyTable_eq st.forest htbl]
    rfl
  split at hres
  · cases hres
    exact ⟨_, hgoal, rfl⟩
  · split at hres
    · cases hres
    · next st₂ hunw =>
      cases hres
      have hforest : st₂.forest.table? top.table = f₁.table? top.table := by
        unfold unwind_stack at hunw
        simp only [hstack] at hunw
        have hunw' : (unwind_frames ops f₁ rest).map
            (fun f => (⟨f, []⟩ : SolveState U G S R I M)) = some st₂ := hunw
        cases hF : unwind_frames ops f₁ rest with
        | none => rw [hF] at hunw'; cases hunw'
        | some ff =>
          rw [hF] at hunw'
          cases hunw'
          exact unwind_frames_table? ops rest _ ff top.table hdisj hF
      rw [hforest]
      exact ⟨_, hgoal, rfl⟩

/-- C4 witness: merging the concrete answer into the strand enqueues the
incremented clone on table 0, whose queue was empty. -/
theorem C4_witness :
    ∃ tbl', c4Res.1.forest.table? 0 = some tbl' ∧
      tbl'.strands = ([] : List (CanonicalStrand Nat Nat Nat Unit)) ++
        [canonicalize_strand trivialOps
          { c4Strand with selected_subgoal := some { c4Sel with answer_index := c4Sel.answer_index + 1 } }] :=
  C4_merge_enqueues_next_answer_strand trivialOps ⟨c4Forest, [c4Top]⟩ c4Top []
    c4Strand c4Sel 3 ⟨wAnswerSubst 0 [], false⟩ ⟨0, false, false, [], []⟩
    rfl rfl rfl rfl rfl (by simp) c4Res rfl

/-- C5: a newly published trivial answer (not ambiguous, trivial
substitution for the table goal, empty constraints) clears the table's
entire strand queue; a newly published non-trivial answer leaves the
queue unchanged. -/
theorem C5_pursue_answer_green_cut
    (ops : Ops G L S R U M I V D P A B F) (st : SolveState U G S R I M)
    (top : StackFrame G S R I M) (rest : Stack G S R I M)
    (strand : Strand G S R I M) (tbl : Table U G S R M) (answer : Answer G S R)
    (idx : AnswerIndex) (tbl' : Table U G S R M)
    (hstack : st.stack = top :: rest)
    (hsub : strand.ex_clause.subgoals = [])
    (hfl : strand.ex_clause.floundered_subgoals = [])
    (htrunc : ops.truncate_answer strand.infer strand.ex_clause.subst = none)
    (htbl : st.forest.table? top.table = some tbl)
    (hansdef : answer = ⟨ops.canonicalize_answer_subst strand.infer
        strand.ex_clause.subst strand.ex_clause.constraints
        strand.ex_clause.delayed_subgoals,
      strand.ex_clause.ambiguous⟩)
    (hpush : tbl.push_answer answer = (some idx, tbl')) :
    ((!answer.ambiguous && ops.is_trivial_substitution tbl.table_goal answer.subst &&
        empty_constraints answer.subst) = true →
      pursue_answer ops st strand =
        some (⟨st.forest.setTable top.table { tbl' with strands := [] }, st.stack⟩, some idx)) ∧
    ((!answer.ambiguous && ops.is_trivial_substitution tbl.table_goal answer.subst &&
        empty_constraints answer.subst) = false →
      pursue_answer ops st strand =
        some (⟨st.forest.setTable top.table tbl', st.stack⟩, some idx) ∧
      tbl'.strands = tbl.strands) := by
  have hstrands : tbl'.strands = tbl.strands := by
    unfold Table.push_answer at hpush
    split at hpush
    · cases hpush
    · cases hpush
      rfl
  subst hansdef
  constructor
  · intro htriv
    unfold pursue_answer
    simp only [hstack, if_pos (And.intro hsub hfl), htrunc, htbl, hpush, htriv,
      Table.take_strands, if_true]
  · intro htriv
    refine ⟨?_, hstrands⟩
    unfold pursue_answer
    simp only [hstack, if_pos (And.intro hsub hfl), htrunc, htbl, hpush, htriv,
      Table.take_strands, if_false]
    rfl

/-- C5 witness: on the concrete table with one queued strand, a trivial
answer (identity substitution 0) clears the queue, while a non-trivial
answer (substitution 1) leaves it unchanged. -/
theorem C5_witness :
    (pursue_answer trivialOps (⟨c5Forest, [c5Top]⟩ : SolveState Nat Nat Nat Nat Unit Unit)
        (c5Strand 0) =
      some (⟨c5Forest.setTable 0
        { (⟨0, false, false, [c5Queued],
            [⟨wAnswerSubst 0 [], false⟩]⟩ : Table Nat Nat Nat Nat Unit) with strands := [] },
        [c5Top]⟩, some 0)) ∧
    (pursue_answer trivialOps (⟨c5Forest, [c5Top]⟩ : SolveState Nat Nat Nat Nat Unit Unit)
        (c5Strand 1) =
      some (⟨c5Forest.setTable 0 ⟨0, false, false, [c5Queued], [⟨wAnswerSubst 1 [], false⟩]⟩,
        [c5Top]⟩, some 0)) := by
  constructor
  · exact (C5_pursue_answer_green_cut trivialOps ⟨c5Forest, [c5Top]⟩ c5Top []
      (c5Strand 0) c5Table ⟨wAnswerSubst 0 [], false⟩ 0
      ⟨0, false, false, [c5Queued], [⟨wAnswerSubst 0 [], false⟩]⟩
      rfl rfl rfl rfl rfl rfl rfl).1 rfl
  · exact ((C5_pursue_answer_green_cut trivialOps ⟨c5Forest, [c5Top]⟩ c5Top []
      (c5Strand 1) c5Table ⟨wAnswerSubst 1 [], false⟩ 0
      ⟨0, false, false, [c5Queued], [⟨wAnswerSubst 1 [], false⟩]⟩
      rfl rfl rfl rfl rfl rfl rfl).2 rfl).1

/-- Vec::swap_remove at a valid index splits the list: the prefix before
the index survives unchanged and the remainder is a permutation of the
suffix after the index. -/
theorem swap_remove_split {α : Type} (l : List α) (i : Nat) (h : i < l.length) :
    ∃ rest, swap_remove l i = l.take i ++ rest ∧ rest.Perm (l.drop (i + 1)) := by
  induction l generalizing i with
  | nil => cases h
  | cons x xs ih =>
    cases xs with
    | nil =>
      have hi : i = 0 := Nat.lt_one_iff.mp h
      subst hi
      exact ⟨[], rfl, List.Perm.refl _⟩
    | cons y ys =>
      cases i with
      | zero =>
        have hne : (y :: ys) ≠ [] := List.cons_ne_nil y ys
        have hlast : (x :: y :: ys).getLast? = some ((y :: ys).getLast hne) := by
          rw [List.getLast?_cons_cons, List.getLast?_eq_getLast _ hne]
        refine ⟨(y :: ys).getLast hne :: (y :: ys).dropLast, ?_, ?_⟩
        · unfold swap_remove
          rw [hlast]
          show ((y :: ys).getLast hne :: y :: ys).dropLast = _
          rw [List.dropLast_cons_of_ne_nil hne]
          rfl
        · have hps := List.perm_append_singleton ((y :: ys).getLast hne) ((y :: ys).dropLast)
          rw [List.dropLast_concat_getLast hne] at hps
          exact hps.symm
      | succ j =>
        have hj : j < (y :: ys).length := Nat.lt_of_succ_lt_succ h
        obtain ⟨rest, hsw, hperm⟩ := ih j hj
        refine ⟨rest, ?_, hperm⟩
        unfold swap_remove at hsw ⊢
        rw [List.getLast?_cons_cons]
        cases hgl : (y :: ys).getLast? with
        | none =>
          rw [List.getLast?_eq_getLast _ (List.cons_ne_nil y ys)] at hgl
          cases hgl
        | some last =>
          rw [hgl] at hsw
          have hsw' : ((y :: ys).set j last).dropLast = (y :: ys).take j ++ rest := hsw
          have hZne : (y :: ys).set j last ≠ [] := by
            have hls : ((y :: ys).set j last).length = (y :: ys).length := List.length_set _ _ _
            intro hnil
            rw [hnil] at hls
            cases hls
          show ((x :: (y :: ys)).set (j + 1) last).dropLast = _
          have hset : (x :: (y :: ys)).set (j + 1) last = x :: (y :: ys).set j last := rfl
          rw [hset, List.dropLast_cons_of_ne_nil hZne, hsw']
          rfl

/-- Specification of the reverse-indexed reconsideration loop: provided
every entry at or beyond the loop counter is already kept (floundered no
earlier than the answer time), the loop keeps exactly the entries whose
floundered time is not before the answer time and moves the literals of
the others to the end of the subgoal list, up to permutation. -/
theorem reconsider_loop_spec (answer_time : TimeStamp) :
    ∀ (i : Nat) (fl : List (FlounderedSubgoal G)) (sg : List (Literal G)),
      i ≤ fl.length →
      (∀ fs ∈ fl.drop i, ¬ fs.floundered_time < answer_time) →
      (reconsider_loop answer_time i fl sg).1.Perm
        (fl.filter (fun fs => !decide (fs.floundered_time < answer_time))) ∧
      (reconsider_loop answer_time i fl sg).2.Perm
        (sg ++ (fl.filter (fun fs => decide (fs.floundered_time < answer_time))).map
          (fun fs => fs.floundered_literal)) := by
  intro i
  induction i with
  | zero =>
    intro fl sg _ hkept
    rw [List.drop_zero] at hkept
    have hkeep : fl.filter (fun fs => !decide (fs.floundered_time < answer_time)) = fl :=
      List.filter_eq_self.mpr (fun a ha => by simp [hkept a ha])
    have hmove : fl.filter (fun fs => decide (fs.floundered_time < answer_time)) = [] :=
      List.filter_eq_nil_iff.mpr (fun a ha => by simp [hkept a ha])
    constructor
    · rw [hkeep]
      exact List.Perm.refl _
    · rw [hmove]
      simp only [List.map_nil, List.append_nil]
      exact List.Perm.refl _
  | succ j ih =>
    intro fl sg hlen hkept
    have hj : j < fl.length := hlen
    have hfs : fl.get? j = some (fl.get ⟨j, hj⟩) := List.get?_eq_get hj
    set fs := fl.get ⟨j, hj⟩ with hfsdef
    have hdropj : fl.drop j = fs :: fl.drop (j + 1) := List.drop_eq_get_cons hj
    unfold reconsider_loop
    simp only [hfs]
    by_cases hp : fs.floundered_time < answer_time
    · simp only [if_pos hp]
      obtain ⟨rest, hsw, hrperm⟩ := swap_remove_split fl j hj
      have hlen₂ : j ≤ (swap_remove fl j).length := by
        rw [hsw]
        simp only [List.length_append, List.length_take]
        omega
      have hdl : (fl.take j ++ rest).drop j = rest := by
        have hlt : (fl.take j).length = j := by
          rw [List.length_take]
          exact min_eq_left (le_of_lt hj)
        rw [List.drop_left' hlt]
      have hkept₂ : ∀ fs' ∈ (swap_remove fl j).drop j,
          ¬ fs'.floundered_time < answer_time := by
        rw [hsw, hdl]
        intro fs' hfs'
        have hmem : fs' ∈ fl.drop (j + 1) := hrperm.mem_iff.mp hfs'
        exact hkept fs' hmem
      obtain ⟨ih1, ih2⟩ := ih (swap_remove fl j) (sg ++ [fs.floundered_literal]) hlen₂ hkept₂
      have hflperm : fl.Perm (fs :: swap_remove fl j) := by
        rw [hsw]
        have h1 : fl = fl.take j ++ (fs :: fl.drop (j + 1)) := by
          rw [← hdropj]
          exact (List.take_append_drop j fl).symm
        have h2 : (fl.take j ++ (fs :: fl.drop (j + 1))).Perm
            (fs :: (fl.take j ++ fl.drop (j + 1))) := List.perm_middle
        have h3 : (fs :: (fl.take j ++ fl.drop (j + 1))).Perm
            (fs :: (fl.take j ++ rest)) :=
          List.Perm.cons fs (List.Perm.append_left _ hrperm.symm)
        nth_rewrite 1 [h1]
        exact h2.trans h3
      constructor
      · refine ih1.trans ?_
        have hstep := hflperm.filter (fun fs => !decide (fs.floundered_time < answer_time))
        rw [List.filter_cons_of_neg (by simp [hp])] at hstep
        exact hstep.symm
      · refine ih2.trans ?_
        have hstep := hflperm.filter (fun fs => decide (fs.floundered_time < answer_time))
        rw [List.filter_cons_of_pos (by simp [hp])] at hstep
        have hmap := hstep.map (fun fs => fs.floundered_literal)
        simp only [List.map_cons] at hmap
        have heq : (sg ++ [fs.floundered_literal]) ++
              ((swap_remove fl j).filter
                (fun fs => decide (fs.floundered_time < answer_time))).map
                (fun fs => fs.floundered_literal)
            = sg ++ (fs.floundered_literal ::
                ((swap_remove fl j).filter
                  (fun fs => decide (fs.floundered_time < answer_time))).map
                  (fun fs => fs.floundered_literal)) := by simp
        rw [heq]
        exact List.Perm.append_left sg hmap.symm
    · simp only [if_neg hp]
      have hkept₂ : ∀ fs' ∈ fl.drop j, ¬ fs'.floundered_time < answer_time := by
        rw [hdropj]
        intro fs' hfs'
        rcases List.mem_cons.mp hfs' with heq | hmem
        · rw [heq]; exact hp
        · exact hkept fs' hmem
      exact ih fl sg (le_of_lt hj) hkept₂

/-- C1 witness: on the concrete forest the cached answer at index 0
carries a delayed subgoal, so root_answer returns InvalidAnswer. -/
theorem C1_witness :
    root_answer trivialOps 1 w1Forest 0 0 =
      some (w1Forest, Except.error RootSearchFail.InvalidAnswer) :=
  (C1_root_answer_invalid_iff trivialOps 1 w1Forest 0 0
      (⟨w1Forest, []⟩ : SolveState Nat Nat Nat Nat Unit Unit)
      { subst := wAnswerSubst 0 [5], ambiguous := false }
      rfl rfl rfl).1.mpr rfl

/-- C6 counterexample: a strand with an empty subgoal list and one
floundered subgoal stamped later than the answer time.  Reconsideration
moves nothing back, the subgoal list is still empty, and subgoal selection
returns Floundered — not NoRemainingSubgoals as the claim states. -/
theorem C6_counterexample :
    select_subgoal trivialOps 2
        (⟨⟨[], 0⟩, []⟩ : SolveState Nat Nat Nat Nat Unit Unit) c6Strand =
      some (⟨⟨[], 0⟩, []⟩, c6Strand, SubGoalSelection.Floundered) ∧
    c6Strand.ex_clause.subgoals = [] ∧
    c6Strand.ex_clause.floundered_subgoals ≠ [] ∧
    (reconsider_floundered_subgoals c6Strand.ex_clause).subgoals = [] ∧
    SubGoalSelection.Floundered ≠ SubGoalSelection.NoRemainingSubgoals :=
  ⟨rfl, rfl, by decide, rfl, by decide⟩

/-- C6 (amended): for a strand with no selected subgoal, an empty subgoal
list and a non-empty floundered list, reconsideration keeps (up to
permutation) exactly the floundered entries whose floundered time is not
before the answer time and moves the literals of exactly the earlier ones
into the subgoal list; if the subgoal list is still empty afterwards,
subgoal selection returns Floundered (not NoRemainingSubgoals) with the
reconsidered strand. -/
theorem C6_select_subgoal_reconsider
    (ops : Ops G L S R U M I V D P A B F) (fuel : Nat)
    (st : SolveState U G S R I M) (strand : Strand G S R I M)
    (hsel : strand.selected_subgoal = none)
    (hsg : strand.ex_clause.subgoals = [])
    (hfl : strand.ex_clause.floundered_subgoals ≠ []) :
    (reconsider_floundered_subgoals strand.ex_clause).floundered_subgoals.Perm
      (strand.ex_clause.floundered_subgoals.filter
        (fun fs => !decide (fs.floundered_time < strand.ex_clause.answer_time))) ∧
    (reconsider_floundered_subgoals strand.ex_clause).subgoals.Perm
      ((strand.ex_clause.floundered_subgoals.filter
        (fun fs => decide (fs.floundered_time < strand.ex_clause.answer_time))).map
        (fun fs => fs.floundered_literal)) ∧
    ((reconsider_floundered_subgoals strand.ex_clause).subgoals = [] →
      select_subgoal ops (fuel + 1) st strand =
        some (st,
          { strand with ex_clause := reconsider_floundered_subgoals strand.ex_clause },
          SubGoalSelection.Floundered)) := by
  obtain ⟨hspec1, hspec2⟩ := reconsider_loop_spec strand.ex_clause.answer_time
    strand.ex_clause.floundered_subgoals.length strand.ex_clause.floundered_subgoals
    strand.ex_clause.subgoals (le_refl _)
    (by intro fs hmem
        rw [List.drop_length] at hmem
        exact absurd hmem (List.not_mem_nil fs))
  have ha : (reconsider_floundered_subgoals strand.ex_clause).floundered_subgoals =
      (reconsider_loop strand.ex_clause.answer_time
        strand.ex_clause.floundered_subgoals.length
        strand.ex_clause.floundered_subgoals strand.ex_clause.subgoals).1 := rfl
  have hb : (reconsider_floundered_subgoals strand.ex_clause).subgoals =
      (reconsider_loop strand.ex_clause.answer_time
        strand.ex_clause.floundered_subgoals.length
        strand.ex_clause.floundered_subgoals strand.ex_clause.subgoals).2 := rfl
  have hperm1 := ha ▸ hspec1
  have hperm2 : (reconsider_floundered_subgoals strand.ex_clause).subgoals.Perm
      ((strand.ex_clause.floundered_subgoals.filter
        (fun fs => decide (fs.floundered_time < strand.ex_clause.answer_time))).map
        (fun fs => fs.floundered_literal)) := by
    rw [hb]
    refine hspec2.trans ?_
    rw [hsg, List.nil_append]
  refine ⟨hperm1, hperm2, ?_⟩
  intro hempty
  have hflE : strand.ex_clause.floundered_subgoals.isEmpty = false := by
    cases h : strand.ex_clause.floundered_subgoals with
    | nil => exact absurd h hfl
    | cons a l => rfl
  have hfl₁ : (reconsider_floundered_subgoals strand.ex_clause).floundered_subgoals ≠ [] := by
    intro hnil
    have h1 : strand.ex_clause.floundered_subgoals.filter
        (fun fs => decide (fs.floundered_time < strand.ex_clause.answer_time)) = [] := by
      have := hperm2.symm
      rw [hempty] at this
      exact List.map_eq_nil.mp this.eq_nil
    have h2 : strand.ex_clause.floundered_subgoals.filter
        (fun fs => !decide (fs.floundered_time < strand.ex_clause.answer_time)) = [] := by
      have := hperm1.symm
      rw [hnil] at this
      exact this.eq_nil
    have hsplit := List.filter_append_perm
      (fun fs => decide (fs.floundered_time < strand.ex_clause.answer_time))
      strand.ex_clause.floundered_subgoals
    rw [h1, h2, List.nil_append] at hsplit
    exact hfl hsplit.symm.eq_nil
  have hflE₁ : (reconsider_floundered_subgoals strand.ex_clause).floundered_subgoals.isEmpty
      = false := by
    cases h : (reconsider_floundered_subgoals strand.ex_clause).floundered_subgoals with
    | nil => exact absurd h hfl₁
    | cons a l => rfl
  have hsgE₁ : (reconsider_floundered_subgoals strand.ex_clause).subgoals.isEmpty = true := by
    rw [hempty]
    rfl
  unfold select_subgoal
  simp only [hsel, hsg, List.length_nil, if_pos rfl, hflE, Bool.false_eq_true, if_false,
    hsgE₁, if_true, hflE₁]

/-- C6 witness: the amended theorem applied to the concrete strand whose
single floundered subgoal postdates the answer time: nothing moves back,
and subgoal selection returns Floundered with the reconsidered strand. -/
theorem C6_witness :
    select_subgoal trivialOps 2
        (⟨⟨[], 0⟩, []⟩ : SolveState Nat Nat Nat Nat Unit Unit) c6Strand =
      some (⟨⟨[], 0⟩, []⟩,
        { c6Strand with ex_clause := reconsider_floundered_subgoals c6Strand.ex_clause },
        SubGoalSelection.Floundered) :=
  (C6_select_subgoal_reconsider trivialOps 1
      (⟨⟨[], 0⟩, []⟩ : SolveState Nat Nat Nat Nat Unit Unit) c6Strand
      rfl rfl (by decide)).2.2 rfl

/-- A successful index search returns an index holding an element that
satisfies the predicate. -/
theorem findIdx_some_get {α : Type} (p : α → Bool) :
    ∀ (l : List α) (i : Nat), l.findIdx? p = some i →
      ∃ a, l.get? i = some a ∧ p a = true := by
  intro l
  induction l with
  | nil => intro i h; cases h
  | cons x xs ih =>
    intro i h
    rw [List.findIdx?_cons] at h
    by_cases hp : p x
    · rw [if_pos hp] at h
      cases h
      exact ⟨x, rfl, hp⟩
    · rw [if_neg hp, List.findIdx?_succ] at h
      cases hx : xs.findIdx? p with
      | none => rw [hx] at h; cases h
      | some j =>
        rw [hx] at h
        have h' : some (j + 1) = some i := h
        cases h'
        obtain ⟨a, hget, hpa⟩ := ih j hx
        exact ⟨a, hget, hpa⟩

/-- A goal-preserving table update preserves every table goal of the
forest. -/
theorem table_goal_modifyTable (f : Forest U G S R M) (i j : TableIndex)
    (upd : Table U G S R M → Table U G S R M)
    (hupd : ∀ t, (upd t).table_goal = t.table_goal) :
    ((f.modifyTable i upd).table? j).map Table.table_goal =
      (f.table? j).map Table.table_goal := by
  by_cases hij : i = j
  · subst hij
    cases htab : f.table? i with
    | none =>
      simp only [Forest.modifyTable, htab]
    | some t =>
      rw [table?_modifyTable_eq f htab upd]
      simp [hupd]
  · rw [table?_modifyTable_ne f hij upd]

/-- Folding goal-preserving forest updates over a list preserves every
table goal. -/
theorem table_goal_foldl {β : Type} (g : Forest U G S R M → β → Forest U G S R M)
    (hg : ∀ f b j, ((g f b).table? j).map Table.table_goal = (f.table? j).map Table.table_goal) :
    ∀ (l : List β) (f : Forest U G S R M) (j : TableIndex),
      ((l.foldl g f).table? j).map Table.table_goal = (f.table? j).map Table.table_goal := by
  intro l
  induction l with
  | nil => intro f j; rfl
  | cons b bs ih =>
    intro f j
    rw [List.foldl_cons, ih, hg]

/-- Seeding the initial strands of a table changes no table goal. -/
theorem table_goal_push_initial_strands_instantiated
    (ops : Ops G L S R U M I V D P A B F) (fuel : Nat)
    (f f₂ : Forest U G S R M) (table : TableIndex) (infer : I) (subst : S)
    (environment : V) (goal : L)
    (h : push_initial_strands_instantiated ops fuel f table infer subst environment goal
      = some f₂) (j : TableIndex) :
    (f₂.table? j).map Table.table_goal = (f.table? j).map Table.table_goal := by
  unfold push_initial_strands_instantiated at h
  split at h
  · split at h
    · have h' := Option.some.inj h
      rw [← h']
      refine table_goal_foldl _ ?_ _ f j
      intro fa b k
      cases hr : ops.resolvent_clause infer _ _ subst b with
      | ok p =>
        simp only [hr]
        exact table_goal_modifyTable fa table k _ (fun t => rfl)
      | error e => simp only [hr]
    · have h' := Option.some.inj h
      rw [← h']
      exact table_goal_modifyTable f table j _ (fun t => rfl)
  · split at h
    · cases h
    · have h' := Option.some.inj h
      rw [← h']
      exact table_goal_modifyTable f table j _ (fun t => rfl)
    · have h' := Option.some.inj h
      rw [← h']

/-- Instantiating and seeding the initial strands of a table changes no
table goal. -/
theorem table_goal_push_initial_strands
    (ops : Ops G L S R U M I V D P A B F) (fuel : Nat)
    (f f₂ : Forest U G S R M) (table : TableIndex)
    (h : push_initial_strands ops fuel f table = some f₂) (j : TableIndex) :
    (f₂.table? j).map Table.table_goal = (f.table? j).map Table.table_goal := by
  unfold push_initial_strands at h
  cases htab : f.table? table with
  | none => rw [htab] at h; cases h
  | some tbl =>
    simp only [htab] at h
    rcases he : ops.instantiate_ucanonical_goal tbl.table_goal with
      ⟨infer, subst, environment, goal⟩
    simp only [he] at h
    exact table_goal_push_initial_strands_instantiated ops fuel f f₂ table
      infer subst environment goal h j

/-- The table returned for a u-canonical goal, whether found or freshly
created, stores that goal as its table goal. -/
theorem get_or_create_ucanonical_table_goal
    (ops : Ops G L S R U M I V D P A B F) (fuel : Nat)
    (f f' : Forest U G S R M) (goal : U) (table : TableIndex)
    (h : get_or_create_table_for_ucanonical_goal ops fuel f goal = some (f', table)) :
    ∃ tbl, f'.table? table = some tbl ∧ tbl.table_goal = goal := by
  unfold get_or_create_table_for_ucanonical_goal at h
  cases hfind : f.tables.findIdx? (fun t => t.table_goal == goal) with
  | some i =>
    rw [hfind] at h
    have h' : some (f, i) = some (f', table) := h
    cases h'
    obtain ⟨a, hget, hp⟩ := findIdx_some_get _ f.tables table hfind
    exact ⟨a, hget, by simpa using hp⟩
  | none =>
    rw [hfind] at h
    have h' : (push_initial_strands ops fuel
        { f with tables := f.tables ++
            [{ table_goal := goal, coinductive_goal := ops.is_coinductive goal,
               floundered := false, strands := [], answers := [] }] }
        f.tables.length).map (fun f₂ => (f₂, f.tables.length)) = some (f', table) := h
    cases hpush : push_initial_strands ops fuel
        { f with tables := f.tables ++
            [{ table_goal := goal, coinductive_goal := ops.is_coinductive goal,
               floundered := false, strands := [], answers := [] }] }
        f.tables.length with
    | none => rw [hpush] at h'; cases h'
    | some f₂ =>
      rw [hpush] at h'
      have h'' : some (f₂, f.tables.length) = some (f', table) := h'
      cases h''
      have hnew : (Forest.table?
          { f with tables := f.tables ++
              [{ table_goal := goal, coinductive_goal := ops.is_coinductive goal,
                 floundered := false, strands := [], answers := [] }] }
          f.tables.length) = some
            { table_goal := goal, coinductive_goal := ops.is_coinductive goal,
              floundered := false, strands := [], answers := [] } := by
        unfold Forest.table?
        exact List.get?_concat_length f.tables _
      have hgoal := table_goal_push_initial_strands ops fuel _ f' f.tables.length
        hpush f.tables.length
      rw [hnew] at hgoal
      cases hres : f'.table? f.tables.length with
      | none => rw [hres] at hgoal; cases hgoal
      | some tbl =>
        rw [hres] at hgoal
        have : tbl.table_goal = goal := Option.some.inj hgoal
        exact ⟨tbl, rfl, this⟩

/-- C7: table lookup for a negative literal returns no table — the
subgoal flounders — exactly when the goal's canonical form has free
existential inference variables (so inversion fails) or the inverted goal
exceeds the truncation bound; otherwise the returned table is the table of
the u-canonicalized inverted goal, with its universe map. -/
theorem C7_negative_literal_flounders_iff
    (ops : Ops G L S R U M I V D P A B F) (fuel : Nat) (f : Forest U G S R M)
    (infer : I) (sg : G) :
    (get_or_create_table_for_subgoal ops fuel f infer (Literal.Negative sg) =
        some (f, none) ↔
      (ops.canonicalize_goal infer sg).free_vars ≠ [] ∨
        ops.truncate_goal infer
          (ops.invert_placeholders infer (ops.canonicalize_goal infer sg).value) ≠ none) ∧
    (∀ (f' : Forest U G S R M) (table : TableIndex) (umap : M),
      get_or_create_table_for_subgoal ops fuel f infer (Literal.Negative sg) =
          some (f', some (table, umap)) →
      umap = (ops.fully_canonicalize_goal infer
        (ops.invert_placeholders infer (ops.canonicalize_goal infer sg).value)).2 ∧
      ∃ tbl, f'.table? table = some tbl ∧
        tbl.table_goal = (ops.fully_canonicalize_goal infer
          (ops.invert_placeholders infer (ops.canonicalize_goal infer sg).value)).1) := by
  rcases hcan : ops.fully_canonicalize_goal infer
    (ops.invert_placeholders infer (ops.canonicalize_goal infer sg).value) with ⟨u, m⟩
  constructor
  · constructor
    · intro h
      by_contra hne
      push_neg at hne
      obtain ⟨hfv, htr⟩ := hne
      have habs : abstract_negative_literal ops infer sg = some (u, m) := by
        simp [abstract_negative_literal, invert, hfv, htr, hcan]
      simp only [get_or_create_table_for_subgoal, habs] at h
      cases hg : get_or_create_table_for_ucanonical_goal ops fuel f u with
      | none =>
        rw [hg] at h
        cases h
      | some p =>
        obtain ⟨f₂, t₂⟩ := p
        simp only [hg] at h
        simp at h
    · intro h
      have habs : abstract_negative_literal ops infer sg = none := by
        cases hfv : (ops.canonicalize_goal infer sg).free_vars with
        | cons a l => simp [abstract_negative_literal, invert, hfv]
        | nil =>
          rcases h with hA | hB
          · exact absurd hfv hA
          · cases htr : ops.truncate_goal infer
                (ops.invert_placeholders infer (ops.canonicalize_goal infer sg).value) with
            | none => exact absurd htr hB
            | some t => simp [abstract_negative_literal, invert, hfv, htr]
      simp only [get_or_create_table_for_subgoal, habs]
  · intro f' table umap h
    cases habs : abstract_negative_literal ops infer sg with
    | none =>
      simp only [get_or_create_table_for_subgoal, habs] at h
      simp at h
    | some um =>
      obtain ⟨u', m'⟩ := um
      have hum : u' = u ∧ m' = m := by
        cases hfv : (ops.canonicalize_goal infer sg).free_vars with
        | cons a l => simp [abstract_negative_literal, invert, hfv] at habs
        | nil =>
          cases htr : ops.truncate_goal infer
              (ops.invert_placeholders infer (ops.canonicalize_goal infer sg).value) with
          | some t => simp [abstract_negative_literal, invert, hfv, htr] at habs
          | none =>
            simp [abstract_negative_literal, invert, hfv, htr, hcan] at habs
            exact ⟨habs.1.symm, habs.2.symm⟩
      obtain ⟨hu, hm⟩ := hum
      simp only [get_or_create_table_for_subgoal, habs] at h
      cases hg : get_or_create_table_for_ucanonical_goal ops fuel f u' with
      | none =>
        rw [hg] at h
        cases h
      | some p =>
        obtain ⟨f₂, t₂⟩ := p
        simp only [hg] at h
        simp only [Option.some.injEq, Prod.mk.injEq] at h
        obtain ⟨hf, ht, hm'⟩ := h
        constructor
        · rw [← hm', hm]
        · obtain ⟨tbl, htbl, hgoal⟩ :=
            get_or_create_ucanonical_table_goal ops fuel f f₂ u' t₂ hg
          refine ⟨tbl, ?_, ?_⟩
          · rw [← hf, ← ht]
            exact htbl
          · rw [hgoal, hu]

/-- C7 witness: the iff and the success branch evaluated on the trivial
operations: the negative literal 7 in the empty forest creates table 0
for the inverted goal 7. -/
theorem C7_witness :
    (¬ (get_or_create_table_for_subgoal trivialOps 2
        (⟨[], 0⟩ : Forest Nat Nat Nat Nat Unit) () (Literal.Negative 7) =
          some ((⟨[], 0⟩ : Forest Nat Nat Nat Nat Unit), none))) ∧
    (() = (trivialOps.fully_canonicalize_goal ()
        (trivialOps.invert_placeholders () (trivialOps.canonicalize_goal () 7).value)).2 ∧
      ∃ tbl, c7Forest.table? 0 = some tbl ∧
        tbl.table_goal = (trivialOps.fully_canonicalize_goal ()
          (trivialOps.invert_placeholders () (trivialOps.canonicalize_goal () 7).value)).1) :=
  ⟨fun h => by
      have := (C7_negative_literal_flounders_iff trivialOps 2
        (⟨[], 0⟩ : Forest Nat Nat Nat Nat Unit) () 7).1.mp h
      rcases this with h1 | h1 <;> exact h1 rfl,
    (C7_negative_literal_flounders_iff trivialOps 2
      (⟨[], 0⟩ : Forest Nat Nat Nat Nat Unit) () 7).2 c7Forest 0 () rfl⟩

/-- C8 counterexample: a queued strand's working substitution satisfies
the predicate, so by the claim the call should return true, but the answer
cached at the requested index fails the predicate and the call returns
false: with an answer cached at the index, only that answer is tested. -/
theorem C8_counterexample :
    any_future_answer c8Forest 0 0 (fun s => s == 0) = some false ∧
    c8Table.strands.any (fun strand =>
      (fun s => s == 0)
        (inference_normalized_subst_from_ex_clause strand.canonical_ex_clause)) = true :=
  ⟨rfl, rfl⟩

/-- C8 (amended): any_future_answer returns true exactly when — if an
answer is cached at the requested index — that single answer's normalized
substitution satisfies the predicate, and otherwise — with no answer at
that index — some currently-queued strand's working substitution does;
other cached answers are never consulted. -/
theorem C8_any_future_answer (f : Forest U G S R M) (table : TableIndex)
    (answer : AnswerIndex) (test : S → Bool) (tbl : Table U G S R M)
    (htbl : f.table? table = some tbl) :
    (∀ a, tbl.answer answer = some a →
      (any_future_answer f table answer test = some true ↔
        test (inference_normalized_subst_from_subst a.subst) = true)) ∧
    (tbl.answer answer = none →
      (any_future_answer f table answer test = some true ↔
        ∃ strand ∈ tbl.strands,
          test (inference_normalized_subst_from_ex_clause
            strand.canonical_ex_clause) = true)) := by
  constructor
  · intro a ha
    unfold any_future_answer
    simp only [htbl, ha, Option.some.injEq]
  · intro ha
    unfold any_future_answer
    simp only [htbl, ha, Option.some.injEq, List.any_eq_true]

/-- C8 witness: on the concrete forest whose table caches an answer at
index 0, the call is decided by that answer's substitution alone. -/
theorem C8_witness :
    any_future_answer c8Forest 0 0 (fun s => s == 0) = some true ↔
      (fun s => s == 0)
        (inference_normalized_subst_from_subst
          (Answer.subst ⟨wAnswerSubst 1 [], false⟩)) = true :=
  (C8_any_future_answer c8Forest 0 0 (fun s => s == 0) c8Table rfl).1
    ⟨wAnswerSubst 1 [], false⟩ rfl

/-- Every type needs at least one unit of zip fuel. -/
theorem tyNeed_pos (ty : Resolvent.Ty) : 1 ≤ Resolvent.tyNeed ty := by
  cases ty <;> simp [Resolvent.tyNeed]

/-- Under the compatibility invariant and with no shallow normalization,
the zipper with enough fuel never hits an abort branch, and a successful
zip preserves the answer substitution and the outer binder. -/
theorem zip_compat_aux {T : Type} (zops : Resolvent.ZipOps T)
    (hnorm : ∀ t ty, zops.normalize_shallow t ty = none) :
    ∀ fuel : Nat,
      (∀ (s : Resolvent.AnswerSubstitutor T) (outer : Nat)
          (answer pending : Resolvent.Ty),
        s.outer_binder = outer →
        Resolvent.Compat s.answer_subst.length outer answer pending →
        Resolvent.tyNeed answer ≤ fuel →
        ∃ r, Resolvent.zip_tys zops fuel s answer pending = some r ∧
          ∀ s', r = Except.ok s' →
            s'.answer_subst = s.answer_subst ∧ s'.outer_binder = outer) ∧
      (∀ (s : Resolvent.AnswerSubstitutor T) (outer : Nat)
          (answers pendings : List Resolvent.Ty),
        s.outer_binder = outer →
        answers.length = pendings.length →
        (∀ pair ∈ answers.zip pendings,
          Resolvent.Compat s.answer_subst.length outer pair.1 pair.2) →
        Resolvent.listNeed answers ≤ fuel →
        ∃ r, Resolvent.zip_ty_list zops fuel s answers pendings = some r ∧
          ∀ s', r = Except.ok s' →
            s'.answer_subst = s.answer_subst ∧ s'.outer_binder = outer) := by
  intro fuel
  induction fuel with
  | zero =>
    constructor
    · intro s outer answer pending _ _ hfuel
      have := tyNeed_pos answer
      omega
    · intro s outer answers pendings hs hlen hpairs hfuel
      cases answers with
      | nil =>
        cases pendings with
        | nil =>
          exact ⟨Except.ok s, rfl, fun s' hs' => by cases hs'; exact ⟨rfl, hs⟩⟩
        | cons p ps => simp at hlen
      | cons a as =>
        have h1 : 1 + max (Resolvent.tyNeed a) (Resolvent.listNeed as) ≤ 0 := hfuel
        omega
  | succ fuel ih =>
    obtain ⟨ihT, ihL⟩ := ih
    constructor
    · intro s outer answer pending hs hcompat hfuel
      cases hcompat with
      | free outer bv pending hdeb hidx hshift =>
        obtain ⟨param, hparam⟩ : ∃ p, s.answer_subst[bv.index]? = some p :=
          ⟨_, List.getElem?_eq_getElem hidx⟩
        obtain ⟨psh, hpsh⟩ := Option.isSome_iff_exists.mp hshift
        cases hu : zops.unify s.table param psh with
        | error e =>
          refine ⟨Except.error e, ?_, fun s' hs' => by cases hs'⟩
          simp [Resolvent.zip_tys, hnorm, Resolvent.unify_free_answer_var,
            Resolvent.BoundVar.index_if_bound_at, hs, hdeb, hparam, hpsh, hu]
        | ok p =>
          obtain ⟨table', result⟩ := p
          refine ⟨Except.ok { s with
            table := table'
            ex_clause := Resolvent.into_ex_clause result s.ex_clause }, ?_, ?_⟩
          · simp [Resolvent.zip_tys, hnorm, Resolvent.unify_free_answer_var,
              Resolvent.BoundVar.index_if_bound_at, hs, hdeb, hparam, hpsh, hu]
          · intro s' hs'
            cases hs'
            exact ⟨rfl, hs⟩
      | bound outer bv hlt =>
        refine ⟨Except.ok s, ?_, fun s' hs' => by cases hs'; exact ⟨rfl, hs⟩⟩
        have hne : bv.debruijn ≠ outer := Nat.ne_of_lt hlt
        simp [Resolvent.zip_tys, hnorm, Resolvent.unify_free_answer_var,
          Resolvent.BoundVar.index_if_bound_at, hne,
          Resolvent.assert_matching_vars, hs, hlt]
      | apply outer name args pargs hlen hpairs =>
        have hfuel' : Resolvent.listNeed args ≤ fuel := by
          have h1 : 1 + Resolvent.listNeed args ≤ fuel + 1 := hfuel
          omega
        obtain ⟨r, hr, hprop⟩ := ihL s outer args pargs hs hlen hpairs hfuel'
        refine ⟨r, ?_, hprop⟩
        simp [Resolvent.zip_tys, hnorm, hr]
      | placeholder outer p =>
        refine ⟨Except.ok s, ?_, fun s' hs' => by cases hs'; exact ⟨rfl, hs⟩⟩
        simp [Resolvent.zip_tys, hnorm]
      | fn outer args pargs hlen hpairs =>
        have hfuel' : Resolvent.listNeed args ≤ fuel := by
          have h1 : 1 + Resolvent.listNeed args ≤ fuel + 1 := hfuel
          omega
        obtain ⟨r, hr, hprop⟩ := ihL { s with outer_binder := s.outer_binder + 1 }
          (outer + 1) args pargs (by simp [hs]) hlen hpairs hfuel'
        cases r with
        | error e =>
          refine ⟨Except.error e, ?_, fun s' hs' => by cases hs'⟩
          simp [Resolvent.zip_tys, hnorm, hr]
        | ok s₂ =>
          obtain ⟨hsub, houter⟩ := hprop s₂ rfl
          refine ⟨Except.ok { s₂ with outer_binder := s₂.outer_binder - 1 }, ?_, ?_⟩
          · simp [Resolvent.zip_tys, hnorm, hr]
          · intro s' hs'
            cases hs'
            refine ⟨hsub, ?_⟩
            show s₂.outer_binder - 1 = outer
            omega
    · intro s outer answers pendings hs hlen hpairs hfuel
      cases answers with
      | nil =>
        cases pendings with
        | nil =>
          exact ⟨Except.ok s, rfl, fun s' hs' => by cases hs'; exact ⟨rfl, hs⟩⟩
        | cons p ps => simp at hlen
      | cons a as =>
        cases pendings with
        | nil => simp at hlen
        | cons p ps =>
          have hneed : 1 + max (Resolvent.tyNeed a) (Resolvent.listNeed as) ≤ fuel + 1 := hfuel
          have hT : Resolvent.tyNeed a ≤ fuel := by omega
          have hL : Resolvent.listNeed as ≤ fuel := by omega
          have hpair : Resolvent.Compat s.answer_subst.length outer a p := by
            refine hpairs (a, p) ?_
            rw [List.zip_cons_cons]
            exact List.mem_cons_self _ _
          obtain ⟨r, hr, hprop⟩ := ihT s outer a p hs hpair hT
          cases r with
          | error e =>
            refine ⟨Except.error e, ?_, fun s' hs' => by cases hs'⟩
            simp [Resolvent.zip_ty_list, hr]
          | ok s₁ =>
            obtain ⟨hsub, houter⟩ := hprop s₁ rfl
            have hpairs' : ∀ pair ∈ as.zip ps,
                Resolvent.Compat s₁.answer_subst.length outer pair.1 pair.2 := by
              intro pair hp
              rw [hsub]
              refine hpairs pair ?_
              rw [List.zip_cons_cons]
              exact List.mem_cons_of_mem _ hp
            obtain ⟨r₂, hr₂, hprop₂⟩ := ihL s₁ outer as ps houter
              (Nat.succ.inj hlen) hpairs' hL
            refine ⟨r₂, ?_, ?_⟩
            · simp [Resolvent.zip_ty_list, hr, hr₂]
            · intro s' hs'
              obtain ⟨h1, h2⟩ := hprop₂ s' hs'
              exact ⟨h1.trans hsub, h2⟩

/-- C9: the three fatal defects abort the engine, and each abort branch is
unreachable under its upstream invariant: (1) a negative literal selected
on a coinductive cycle aborts, while (2) a positive one under coinductive
tables succeeds; (3) an answer with delayed subgoals merged into a
negative subgoal aborts, while (4) one without merges; (5) a structural
mismatch between answer and pending goal at a non-variable position aborts
the zipper, while (6) structurally compatible terms zip without abort. -/
theorem C9_fatal_defects :
    (∀ (st : SolveState U G S R I M) (strand : Strand G S R I M)
        (sel : SelectedSubgoal M) (g : G),
      strand.selected_subgoal = some sel →
      strand.ex_clause.subgoals.get? sel.subgoal_index = some (Literal.Negative g) →
      on_coinductive_subgoal st strand = none) ∧
    (∀ (st : SolveState U G S R I M) (strand : Strand G S R I M)
        (sel : SelectedSubgoal M) (g : G) (top : StackFrame G S R I M)
        (rest : Stack G S R I M) (t₁ t₂ : Table U G S R M),
      strand.selected_subgoal = some sel →
      strand.ex_clause.subgoals.get? sel.subgoal_index = some (Literal.Positive g) →
      st.stack = top :: rest →
      st.forest.table? top.table = some t₁ →
      st.forest.table? sel.subgoal_table = some t₂ →
      t₁.coinductive_goal = true →
      t₂.coinductive_goal = true →
      ∃ st', on_coinductive_subgoal st strand = some (st', Except.ok ())) ∧
    (∀ (ops : Ops G L S R U M I V D P A B F) (st : SolveState U G S R I M)
        (strand : Strand G S R I M) (sel : SelectedSubgoal M) (g : G)
        (answer : Answer G S R),
      strand.selected_subgoal = some sel →
      strand.ex_clause.subgoals.get? sel.subgoal_index = some (Literal.Negative g) →
      st.forest.answer? sel.subgoal_table sel.answer_index = some answer →
      has_delayed_subgoals answer.subst = true →
      merge_answer_into_strand ops st strand = none) ∧
    (∀ (ops : Ops G L S R U M I V D P A B F) (st : SolveState U G S R I M)
        (strand : Strand G S R I M) (sel : SelectedSubgoal M) (g : G)
        (answer : Answer G S R) (st₂ : SolveState U G S R I M),
      strand.selected_subgoal = some sel →
      strand.ex_clause.subgoals.get? sel.subgoal_index = some (Literal.Negative g) →
      st.forest.answer? sel.subgoal_table sel.answer_index = some answer →
      has_delayed_subgoals answer.subst = false →
      unwind_stack ops st = some st₂ →
      (merge_answer_into_strand ops st strand).isSome = true) ∧
    (∀ (T : Type) (zops : Resolvent.ZipOps T) (fuel : Nat)
        (s : Resolvent.AnswerSubstitutor T) (answer pending : Resolvent.Ty),
      zops.normalize_shallow s.table pending = none →
      answer.head ≠ 0 → answer.head ≠ 1 → pending.head ≠ 1 →
      answer.head ≠ pending.head →
      Resolvent.zip_tys zops (fuel + 1) s answer pending = none) ∧
    (∀ (T : Type) (zops : Resolvent.ZipOps T),
      (∀ t ty, zops.normalize_shallow t ty = none) →
      ∀ (fuel : Nat) (s : Resolvent.AnswerSubstitutor T)
        (answer pending : Resolvent.Ty),
      Resolvent.Compat s.answer_subst.length s.outer_binder answer pending →
      Resolvent.tyNeed answer ≤ fuel →
      (Resolvent.zip_tys zops fuel s answer pending).isSome = true) := by
  refine ⟨?_, ?_, ?_, ?_, ?_, ?_⟩
  · intro st strand sel g hsel hget
    simp only [on_coinductive_subgoal, hsel, hget]
  · intro st strand sel g top rest t₁ t₂ hsel hget hstack ht1 ht2 hco1 hco2
    refine ⟨⟨st.forest, { top with active_strand := some { strand with
        selected_subgoal := none
        ex_clause := { strand.ex_clause with
          subgoals := strand.ex_clause.subgoals.eraseIdx sel.subgoal_index
          delayed_subgoals := strand.ex_clause.delayed_subgoals ++ [g] } } } :: rest⟩, ?_⟩
    unfold on_coinductive_subgoal
    simp only [hsel, hget, hstack, ht1, ht2, hco1, hco2, eq_self_iff_true, and_self, if_true]
  · intro ops st strand sel g answer hsel hget hans hdel
    simp only [merge_answer_into_strand, hsel, hget, hans, hdel, eq_self_iff_true, if_true]
  · intro ops st strand sel g answer st₂ hsel hget hans hdel hunw
    cases hamb : answer.ambiguous with
    | false =>
      simp only [merge_answer_into_strand, hsel, hget, hans, hdel, hamb,
        Bool.false_eq_true, if_false, Bool.not_false, eq_self_iff_true, if_true,
        hunw, Option.isSome_some]
    | true =>
      simp only [merge_answer_into_strand, hsel, hget, hans, hdel, hamb,
        Bool.false_eq_true, if_false, Bool.not_true, Option.isSome_some]
  · intro T zops fuel s answer pending hnorm hb hi hp hne
    cases answer <;> cases pending <;>
      simp_all [Resolvent.zip_tys, Resolvent.Ty.head]
  · intro T zops hnorm fuel s answer pending hcompat hfuel
    obtain ⟨r, hr, _⟩ :=
      (zip_compat_aux zops hnorm fuel).1 s s.outer_binder answer pending rfl hcompat hfuel
    rw [hr]
    rfl

/-- C9 witness: the three aborts and the three non-abort branches
evaluated on concrete states: a negative coinductive literal aborts while
a positive one under coinductive tables succeeds; a delayed-subgoal answer
for a negative subgoal aborts while a non-delayed one merges; mismatched
apply/placeholder heads abort the zipper while a compatible bound-variable
answer zips. -/
theorem C9_witness :
    on_coinductive_subgoal (⟨⟨[], 0⟩, []⟩ : SolveState Nat Nat Nat Nat Unit Unit)
        (c3Strand (Literal.Negative 4)) = none ∧
    (∃ st', on_coinductive_subgoal
        (⟨c9CoForest, [c3Top]⟩ : SolveState Nat Nat Nat Nat Unit Unit)
        (c3Strand (Literal.Positive 4)) = some (st', Except.ok ())) ∧
    merge_answer_into_strand trivialOps
        (⟨w1Forest, []⟩ : SolveState Nat Nat Nat Nat Unit Unit)
        (c3Strand (Literal.Negative 4)) = none ∧
    (merge_answer_into_strand trivialOps
        (⟨c8Forest, []⟩ : SolveState Nat Nat Nat Nat Unit Unit)
        (c3Strand (Literal.Negative 4))).isSome = true ∧
    Resolvent.zip_tys c9ZipOps 1 c9Subst (Resolvent.Ty.apply 0 [])
        (Resolvent.Ty.placeholder 0) = none ∧
    (Resolvent.zip_tys c9ZipOps 3 c9Subst
        (Resolvent.Ty.apply 0 [Resolvent.Ty.boundVar ⟨0, 0⟩])
        (Resolvent.Ty.apply 0 [Resolvent.Ty.placeholder 3])).isSome = true :=
  let thm := @C9_fatal_defects Nat Nat Nat Nat Nat Unit Unit Unit Unit Unit Unit Unit Unit
    _ _ _ _ _
  ⟨thm.1 _ _ ⟨0, 0, 0, ()⟩ 4 rfl rfl,
   thm.2.1 _ _ ⟨0, 0, 0, ()⟩ 4 c3Top [] ⟨0, true, false, [], []⟩
     ⟨0, true, false, [], []⟩ rfl rfl rfl rfl rfl rfl rfl,
   thm.2.2.1 trivialOps _ _ ⟨0, 0, 0, ()⟩ 4
     ⟨wAnswerSubst 0 [5], false⟩ rfl rfl rfl rfl,
   thm.2.2.2.1 trivialOps _ _ ⟨0, 0, 0, ()⟩ 4
     ⟨wAnswerSubst 1 [], false⟩ ⟨c8Forest, []⟩ rfl rfl rfl rfl rfl,
   thm.2.2.2.2.1 Unit c9ZipOps 0 c9Subst _ _
     rfl (by decide) (by decide) (by decide) (by decide),
   thm.2.2.2.2.2 Unit c9ZipOps (fun _ _ => rfl) 3 c9Subst _ _
     (Resolvent.Compat.apply _ 0 _ _ rfl (fun pair hp => by
        have hp' : pair =
            (Resolvent.Ty.boundVar ⟨0, 0⟩, Resolvent.Ty.placeholder 3) :=
          List.mem_singleton.mp hp
        rw [hp']
        exact Resolvent.Compat.free _ _ _ rfl (by decide) rfl))
     (by decide)⟩

end Theorems

end ChalkEngine
